import Mathlib

/-!
# Verification of the Remitwise insurance obligation engine

Shallow embedding of `src/insurance/src/lib.rs` (Soroban contract `Insurance`).

Modelling conventions:
* `Address` is modelled as `Nat`; `caller.require_auth()` is assumed to succeed
  for the claimed principal (the environment's yes/no gate), so only the
  in-contract `owner == caller` comparisons appear here.
* Soroban `Map<K, V>` is modelled as an association list (`mapGet`/`mapSet`);
  `set` replaces the first binding in place or appends a fresh one, matching
  key-unique map semantics. Iteration is list order.
* `u64` ledger timestamps are modelled as `Nat` and `u32` counters as `Nat`:
  the contract's unsigned arithmetic is exact below `2 ^ 64` (resp. `2 ^ 32`),
  and checked arithmetic would trap rather than wrap at overflow, so the
  theorems describe the non-trapping range.  `i128` amounts are modelled as
  `Int`; the `saturating_add` / `saturating_sub` / `saturating_abs` calls of
  `adjust_active_premium_total` are modelled exactly, with explicit clamping
  to the `i128` range.
* A contract function returning `Err` aborts the transaction, so an
  operation is modelled as `Except InsuranceError (result × ContractState)`:
  the error case carries no state, i.e. no mutation is visible to the caller.
* Event emission and TTL extension (`extend_instance_ttl`) have no effect on
  the data the claims talk about and are not modelled.
-/

namespace Remitwise

deriving instance DecidableEq for Except

abbrev Address := Nat

/-- `enum InsuranceError` from `src/insurance/src/lib.rs`. -/
inductive InsuranceError where
  | PolicyNotFound
  | Unauthorized
  | InvalidAmount
  | PolicyInactive
  | ContractPaused
  | FunctionPaused
  | InvalidTimestamp
  | BatchTooLarge
deriving Repr, DecidableEq

/-- The six pausable-function symbols of `pause_functions`. -/
inductive PauseFn where
  | crt_pol
  | pay_prem
  | deact
  | crt_sch
  | mod_sch
  | can_sch
deriving Repr, DecidableEq

/-- `struct InsurancePolicy`. -/
structure InsurancePolicy where
  id : Nat
  owner : Address
  name : String
  coverage_type : String
  monthly_premium : Int
  coverage_amount : Int
  active : Bool
  next_payment_date : Nat
  schedule_id : Option Nat
deriving Repr, DecidableEq

/-- `struct PremiumSchedule`. -/
structure PremiumSchedule where
  id : Nat
  owner : Address
  policy_id : Nat
  next_due : Nat
  interval : Nat
  recurring : Bool
  active : Bool
  created_at : Nat
  last_executed : Option Nat
  missed_count : Nat
deriving Repr, DecidableEq

/-- Lookup in a soroban `Map` modelled as an association list. -/
def mapGet {κ α : Type} [DecidableEq κ] : List (κ × α) → κ → Option α
  | [], _ => none
  | (k', v) :: rest, k => if k' = k then some v else mapGet rest k

/-- `Map::set`: replace the binding in place, or append a fresh one. -/
def mapSet {κ α : Type} [DecidableEq κ] : List (κ × α) → κ → α → List (κ × α)
  | [], k, v => [(k, v)]
  | (k', v') :: rest, k, v =>
      if k' = k then (k, v) :: rest else (k', v') :: mapSet rest k v

/-- Smallest `i128` value. -/
def i128Min : Int := -(2 ^ 127)

/-- Largest `i128` value. -/
def i128Max : Int := 2 ^ 127 - 1

/-- Clamp an integer into the `i128` range. -/
def i128Clamp (x : Int) : Int := max i128Min (min x i128Max)

/-- Rust `i128::saturating_add` on in-range operands. -/
def saturatingAdd (a b : Int) : Int := i128Clamp (a + b)

/-- Rust `i128::saturating_sub` on in-range operands. -/
def saturatingSub (a b : Int) : Int := i128Clamp (a - b)

/-- Rust `i128::saturating_abs` on an in-range operand. -/
def saturatingAbs (a : Int) : Int := i128Clamp |a|

/-- The whole instance storage of the contract. -/
structure ContractState where
  policies : List (Nat × InsurancePolicy)
  schedules : List (Nat × PremiumSchedule)
  next_id : Nat
  next_sched_id : Nat
  /-- `PRM_TOT`; `none` models the storage key being absent. -/
  premium_totals : Option (List (Address × Int))
  /-- `PAUSED` (`unwrap_or(false)` folded into the field). -/
  paused : Bool
  /-- `PAUSED_FN` map. -/
  pausedFns : List (PauseFn × Bool)
deriving Repr, DecidableEq

/-- `is_function_paused`. -/
def is_function_paused (s : ContractState) (f : PauseFn) : Bool :=
  ((mapGet s.pausedFns f).getD false)

/-- `require_not_paused`. -/
def require_not_paused (s : ContractState) (f : PauseFn) :
    Except InsuranceError Unit :=
  if s.paused then .error .ContractPaused
  else if is_function_paused s f then .error .FunctionPaused
  else .ok ()

/-- `adjust_active_premium_total` (the source's `totals` / `current` /
`next` bindings are inlined). -/
def adjust_active_premium_total (s : ContractState) (owner : Address)
    (delta : Int) : ContractState :=
  if delta = 0 then s
  else
    { s with
      premium_totals := some (mapSet (s.premium_totals.getD []) owner
        (if 0 ≤ delta then
          saturatingAdd ((mapGet (s.premium_totals.getD []) owner).getD 0)
            delta
        else
          saturatingSub ((mapGet (s.premium_totals.getD []) owner).getD 0)
            (saturatingAbs delta))) }

/-- `create_policy`. -/
def create_policy (s : ContractState) (now : Nat) (owner : Address)
    (name coverage_type : String) (monthly_premium coverage_amount : Int) :
    Except InsuranceError (Nat × ContractState) :=
  (require_not_paused s .crt_pol).bind fun _ =>
  if monthly_premium ≤ 0 ∨ coverage_amount ≤ 0 then
    .error .InvalidAmount
  else
    .ok (s.next_id + 1,
      adjust_active_premium_total
        { s with
          policies := mapSet s.policies (s.next_id + 1)
            { id := s.next_id + 1, owner := owner, name := name,
              coverage_type := coverage_type,
              monthly_premium := monthly_premium,
              coverage_amount := coverage_amount, active := true,
              next_payment_date := now + 30 * 86400, schedule_id := none },
          next_id := s.next_id + 1 }
        owner monthly_premium)

/-- `pay_premium`. -/
def pay_premium (s : ContractState) (now : Nat) (caller : Address)
    (policy_id : Nat) : Except InsuranceError ContractState :=
  (require_not_paused s .pay_prem).bind fun _ =>
  match mapGet s.policies policy_id with
  | none => .error .PolicyNotFound
  | some policy =>
    if policy.owner ≠ caller then .error .Unauthorized
    else if ¬policy.active then .error .PolicyInactive
    else
      .ok { s with
            policies := mapSet s.policies policy_id
              { policy with next_payment_date := now + 30 * 86400 } }

/-- The validation loop of `batch_pay_premiums` (first `for` loop). -/
def validate_batch (policies : List (Nat × InsurancePolicy))
    (caller : Address) : List Nat → Except InsuranceError Unit
  | [] => .ok ()
  | id :: rest =>
    match mapGet policies id with
    | none => .error .PolicyNotFound
    | some policy =>
      if policy.owner ≠ caller then .error .Unauthorized
      else if ¬policy.active then .error .PolicyInactive
      else validate_batch policies caller rest

/-- The application loop of `batch_pay_premiums` (second `for` loop).
The `none` branch is unreachable after `validate_batch` succeeded: the source
uses `unwrap()` there. -/
def apply_batch (now : Nat) :
    List (Nat × InsurancePolicy) × Nat → List Nat →
    List (Nat × InsurancePolicy) × Nat
  | acc, [] => acc
  | (pm, paid_count), id :: rest =>
    match mapGet pm id with
    | none => apply_batch now (pm, paid_count) rest
    | some policy =>
      let policy := { policy with next_payment_date := now + 30 * 86400 }
      apply_batch now (mapSet pm id policy, paid_count + 1) rest

/-- `batch_pay_premiums` (`MAX_BATCH_SIZE = 50`). -/
def batch_pay_premiums (s : ContractState) (now : Nat) (caller : Address)
    (policy_ids : List Nat) : Except InsuranceError (Nat × ContractState) :=
  (require_not_paused s .pay_prem).bind fun _ =>
  if policy_ids.length > 50 then .error .BatchTooLarge
  else
    (validate_batch s.policies caller policy_ids).bind fun _ =>
    let r := apply_batch now (s.policies, 0) policy_ids
    .ok (r.2, { s with policies := r.1 })

/-- `get_policy`. -/
def get_policy (s : ContractState) (policy_id : Nat) :
    Option InsurancePolicy :=
  mapGet s.policies policy_id

/-- The recomputation loop of `get_total_monthly_premium`
(`total += policy.monthly_premium` over the active policies of `owner`; the
source loop accumulates left to right, this recursion sums right to left —
the total is the same). -/
def activeSum : List (Nat × InsurancePolicy) → Address → Int
  | [], _ => 0
  | e :: rest, owner =>
    (if e.2.active = true ∧ e.2.owner = owner then e.2.monthly_premium
     else 0) + activeSum rest owner

/-- `get_total_monthly_premium`: cached per-owner total when present,
else recomputed sum. -/
def get_total_monthly_premium (s : ContractState) (owner : Address) : Int :=
  match s.premium_totals with
  | some totals =>
    match mapGet totals owner with
    | some total => total
    | none => activeSum s.policies owner
  | none => activeSum s.policies owner

/-- `deactivate_policy` (the source's `was_active` / `premium_amount`
bindings are inlined; `premium_amount` equals `policy.monthly_premium`,
which the `active := false` update does not change). -/
def deactivate_policy (s : ContractState) (caller : Address)
    (policy_id : Nat) : Except InsuranceError (Bool × ContractState) :=
  (require_not_paused s .deact).bind fun _ =>
  match mapGet s.policies policy_id with
  | none => .error .PolicyNotFound
  | some policy =>
    if policy.owner ≠ caller then .error .Unauthorized
    else
      .ok (true,
        if policy.active then
          adjust_active_premium_total
            { s with
              policies := mapSet s.policies policy_id
                { policy with active := false } }
            caller (-policy.monthly_premium)
        else
          { s with
            policies := mapSet s.policies policy_id
              { policy with active := false } })

/-- `create_premium_schedule`. -/
def create_premium_schedule (s : ContractState) (now : Nat)
    (owner : Address) (policy_id : Nat) (next_due interval : Nat) :
    Except InsuranceError (Nat × ContractState) :=
  (require_not_paused s .crt_sch).bind fun _ =>
  match mapGet s.policies policy_id with
  | none => .error .PolicyNotFound
  | some policy =>
    if policy.owner ≠ owner then .error .Unauthorized
    else if next_due ≤ now then .error .InvalidTimestamp
    else
      let next_schedule_id := s.next_sched_id + 1
      let schedule : PremiumSchedule :=
        { id := next_schedule_id, owner := owner, policy_id := policy_id,
          next_due := next_due, interval := interval,
          recurring := 0 < interval, active := true, created_at := now,
          last_executed := none, missed_count := 0 }
      let policy := { policy with schedule_id := some next_schedule_id }
      .ok (next_schedule_id,
        { s with
          schedules := mapSet s.schedules next_schedule_id schedule,
          next_sched_id := next_schedule_id,
          policies := mapSet s.policies policy_id policy })

/-- `modify_premium_schedule` (the timestamp check precedes the lookup;
a missing schedule errors with `PolicyNotFound`, as in the source). -/
def modify_premium_schedule (s : ContractState) (now : Nat)
    (caller : Address) (schedule_id : Nat) (next_due interval : Nat) :
    Except InsuranceError (Bool × ContractState) :=
  (require_not_paused s .mod_sch).bind fun _ =>
  if next_due ≤ now then .error .InvalidTimestamp
  else
    match mapGet s.schedules schedule_id with
    | none => .error .PolicyNotFound
    | some schedule =>
      if schedule.owner ≠ caller then .error .Unauthorized
      else
        let schedule :=
          { schedule with next_due := next_due, interval := interval,
                          recurring := 0 < interval }
        .ok (true, { s with schedules := mapSet s.schedules schedule_id schedule })

/-- `cancel_premium_schedule`. -/
def cancel_premium_schedule (s : ContractState) (caller : Address)
    (schedule_id : Nat) : Except InsuranceError (Bool × ContractState) :=
  (require_not_paused s .can_sch).bind fun _ =>
  match mapGet s.schedules schedule_id with
  | none => .error .PolicyNotFound
  | some schedule =>
    if schedule.owner ≠ caller then .error .Unauthorized
    else
      let schedule := { schedule with active := false }
      .ok (true, { s with schedules := mapSet s.schedules schedule_id schedule })

/-- The catch-up loop of `execute_due_premium_schedules`:
`while next <= current_time { missed += 1; next += interval }`, returning
`(missed, next)`.  The source only enters the loop under the guard
`schedule.recurring && schedule.interval > 0`; the `interval = 0` branch
below is never reached from `execute_due_premium_schedules`. -/
def catchUpLoop (interval now next : Nat) : Nat × Nat :=
  if _h1 : interval = 0 then (0, next)
  else if _h2 : next ≤ now then
    let r := catchUpLoop interval now (next + interval)
    (r.1 + 1, r.2)
  else (0, next)
termination_by now + 1 - next
decreasing_by omega

/-- The `if let Some(mut policy) = policies.get(schedule.policy_id)` block of
`execute_due_premium_schedules`: renew the linked policy when it exists and
is active, otherwise leave the policies map alone. -/
def stepPolicies (now : Nat) (policies : List (Nat × InsurancePolicy))
    (policy_id : Nat) : List (Nat × InsurancePolicy) :=
  match mapGet policies policy_id with
  | some policy =>
    if policy.active then
      mapSet policies policy_id
        { policy with next_payment_date := now + 30 * 86400 }
    else policies
  | none => policies

/-- The schedule mutation of one loop iteration of
`execute_due_premium_schedules`: stamp `last_executed`, then either run the
catch-up loop (recurring) or deactivate (one-shot).  The source assigns
`last_executed` first and then branches; the two assignments are merged into
one record update per branch here. -/
def stepSchedule (now : Nat) (schedule : PremiumSchedule) : PremiumSchedule :=
  if schedule.recurring ∧ 0 < schedule.interval then
    { schedule with
      last_executed := some now,
      missed_count := schedule.missed_count +
        (catchUpLoop schedule.interval now
          (schedule.next_due + schedule.interval)).1,
      next_due := (catchUpLoop schedule.interval now
        (schedule.next_due + schedule.interval)).2 }
  else { schedule with last_executed := some now, active := false }

/-- A schedule is processed by `execute_due_premium_schedules` iff it is
active and due (`!schedule.active || schedule.next_due > current_time`
negated). -/
def dueNow (now : Nat) (schedule : PremiumSchedule) : Prop :=
  schedule.active = true ∧ schedule.next_due ≤ now

instance (now : Nat) (schedule : PremiumSchedule) :
    Decidable (dueNow now schedule) := by
  unfold dueNow; infer_instance

/-- The body of the `for` loop of `execute_due_premium_schedules` for one
`(schedule_id, schedule)` entry, threading the mutated `policies`,
`schedules` and `executed` accumulators. -/
def processSchedule (now : Nat)
    (acc : List (Nat × InsurancePolicy) × List (Nat × PremiumSchedule) × List Nat)
    (entry : Nat × PremiumSchedule) :
    List (Nat × InsurancePolicy) × List (Nat × PremiumSchedule) × List Nat :=
  if dueNow now entry.2 then
    (stepPolicies now acc.1 entry.2.policy_id,
     mapSet acc.2.1 entry.1 (stepSchedule now entry.2),
     acc.2.2 ++ [entry.1])
  else acc

/-- `execute_due_premium_schedules` (keeper call; note: the source performs
no `require_not_paused` check here). The `for` loop iterates the snapshot
taken when the map was read, while `get`/`set` act on the threaded
accumulators. -/
def execute_due_premium_schedules (s : ContractState) (now : Nat) :
    List Nat × ContractState :=
  ((s.schedules.foldl (processSchedule now) (s.policies, s.schedules, [])).2.2,
   { s with
     policies :=
       (s.schedules.foldl (processSchedule now) (s.policies, s.schedules, [])).1,
     schedules :=
       (s.schedules.foldl (processSchedule now) (s.policies, s.schedules, [])).2.1 })

/-- `get_premium_schedule`. -/
def get_premium_schedule (s : ContractState) (schedule_id : Nat) :
    Option PremiumSchedule :=
  mapGet s.schedules schedule_id

/-! ## Association-list map lemmas -/

theorem mapGet_mapSet_self {κ α : Type} [DecidableEq κ]
    (m : List (κ × α)) (k : κ) (v : α) :
    mapGet (mapSet m k v) k = some v := by
  induction m with
  | nil => simp [mapGet, mapSet]
  | cons e rest ih =>
    obtain ⟨k', v'⟩ := e
    by_cases h : k' = k
    · simp [mapGet, mapSet, h]
    · simp [mapGet, mapSet, h, ih]

theorem mapGet_mapSet_ne {κ α : Type} [DecidableEq κ]
    (m : List (κ × α)) {k k' : κ} (v : α) (h : k' ≠ k) :
    mapGet (mapSet m k v) k' = mapGet m k' := by
  have h' : ¬(k = k') := fun hh => h hh.symm
  induction m with
  | nil => simp [mapGet, mapSet, h']
  | cons e rest ih =>
    obtain ⟨k₀, v₀⟩ := e
    by_cases h0 : k₀ = k
    · subst h0
      simp [mapGet, mapSet, h']
    · simp only [mapSet, if_neg h0]
      by_cases h1 : k₀ = k'
      · simp [mapGet, h1]
      · simp [mapGet, h1, ih]

theorem keys_mapSet_of_mem {κ α : Type} [DecidableEq κ]
    (m : List (κ × α)) (k : κ) (v : α) (h : k ∈ m.map Prod.fst) :
    (mapSet m k v).map Prod.fst = m.map Prod.fst := by
  induction m with
  | nil => simp at h
  | cons e rest ih =>
    obtain ⟨k₀, v₀⟩ := e
    by_cases h0 : k₀ = k
    · simp [mapSet, h0]
    · simp only [List.map_cons, List.mem_cons] at h
      rcases h with h | h
      · exact absurd h.symm h0
      · simp [mapSet, h0, ih h]

theorem mapSet_of_not_mem {κ α : Type} [DecidableEq κ]
    (m : List (κ × α)) (k : κ) (v : α) (h : k ∉ m.map Prod.fst) :
    mapSet m k v = m ++ [(k, v)] := by
  induction m with
  | nil => simp [mapSet]
  | cons e rest ih =>
    obtain ⟨k₀, v₀⟩ := e
    simp only [List.map_cons, List.mem_cons] at h
    push_neg at h
    have h1 : ¬(k₀ = k) := fun hh => h.1 hh.symm
    simp [mapSet, h1, ih h.2]

theorem mapGet_eq_some_of_mem {κ α : Type} [DecidableEq κ]
    {m : List (κ × α)} {k : κ} {v : α}
    (hnod : (m.map Prod.fst).Nodup) (hmem : (k, v) ∈ m) :
    mapGet m k = some v := by
  induction m with
  | nil => simp at hmem
  | cons e rest ih =>
    obtain ⟨k₀, v₀⟩ := e
    simp only [List.map_cons, List.nodup_cons] at hnod
    rcases List.mem_cons.mp hmem with h | h
    · injection h with h1 h2
      subst h1; subst h2
      simp [mapGet]
    · have hk : ¬(k₀ = k) := by
        rintro rfl
        exact hnod.1 (List.mem_map.mpr ⟨_, h, rfl⟩)
      simp [mapGet, hk, ih hnod.2 h]

theorem mem_of_mapGet_eq_some {κ α : Type} [DecidableEq κ]
    {m : List (κ × α)} {k : κ} {v : α} (h : mapGet m k = some v) :
    (k, v) ∈ m := by
  induction m with
  | nil => simp [mapGet] at h
  | cons e rest ih =>
    obtain ⟨k₀, v₀⟩ := e
    by_cases h0 : k₀ = k
    · subst h0
      rw [mapGet, if_pos rfl] at h
      injection h with h
      subst h
      exact List.mem_cons_self _ _
    · rw [mapGet, if_neg h0] at h
      exact List.mem_cons_of_mem _ (ih h)

theorem mapGet_isSome_of_mem_keys {κ α : Type} [DecidableEq κ]
    {m : List (κ × α)} {k : κ} (h : k ∈ m.map Prod.fst) :
    (mapGet m k).isSome := by
  induction m with
  | nil => simp at h
  | cons e rest ih =>
    obtain ⟨k₀, v₀⟩ := e
    by_cases h0 : k₀ = k
    · simp [mapGet, h0]
    · simp only [List.map_cons, List.mem_cons] at h
      rcases h with h | h
      · exact absurd h.symm h0
      · simp [mapGet, h0, ih h]

theorem mem_keys_of_mapGet_isSome {κ α : Type} [DecidableEq κ]
    {m : List (κ × α)} {k : κ} (h : (mapGet m k).isSome) :
    k ∈ m.map Prod.fst := by
  induction m with
  | nil => simp [mapGet] at h
  | cons e rest ih =>
    obtain ⟨k₀, v₀⟩ := e
    by_cases h0 : k₀ = k
    · simp [h0]
    · simp only [mapGet, if_neg h0] at h
      simp [ih h]

theorem mapSet_eq_self {κ α : Type} [DecidableEq κ]
    {m : List (κ × α)} {k : κ} {v : α}
    (hnod : (m.map Prod.fst).Nodup) (hmem : (k, v) ∈ m) :
    mapSet m k v = m := by
  induction m with
  | nil => simp at hmem
  | cons e rest ih =>
    obtain ⟨k₀, v₀⟩ := e
    simp only [List.map_cons, List.nodup_cons] at hnod
    rcases List.mem_cons.mp hmem with h | h
    · injection h with h1 h2
      subst h1; subst h2
      simp [mapSet]
    · have hk : k₀ ≠ k := by
        rintro rfl
        exact hnod.1 (List.mem_map.mpr ⟨_, h, rfl⟩)
      simp [mapSet, hk, ih hnod.2 h]

/-! ## Catch-up loop lemmas -/

theorem catchUpLoop_stop (interval now next : Nat) (h : now < next) :
    catchUpLoop interval now next = (0, next) := by
  rw [catchUpLoop]
  by_cases h1 : interval = 0 <;> simp [h1, Nat.not_le.mpr h]

theorem catchUpLoop_step (interval now next : Nat) (h0 : interval ≠ 0)
    (h : next ≤ now) :
    catchUpLoop interval now next =
      ((catchUpLoop interval now (next + interval)).1 + 1,
       (catchUpLoop interval now (next + interval)).2) := by
  rw [catchUpLoop]
  simp [h0, h]

/-- The catch-up loop always leaves `next` strictly beyond `now`
(the loop guard, given a positive interval). -/
theorem catchUpLoop_gt (interval now next : Nat) (hI : interval ≠ 0) :
    now < (catchUpLoop interval now next).2 := by
  by_cases h : next ≤ now
  · rw [catchUpLoop_step interval now next hI h]
    exact catchUpLoop_gt interval now (next + interval) hI
  · rw [catchUpLoop_stop interval now next (Nat.not_le.mp h)]
    exact Nat.not_le.mp h
termination_by now + 1 - next
decreasing_by omega

/-- The catch-up loop advances `next` by exactly `missed` whole intervals. -/
theorem catchUpLoop_snd_eq (interval now next : Nat) :
    (catchUpLoop interval now next).2 =
      next + (catchUpLoop interval now next).1 * interval := by
  by_cases h0 : interval = 0
  · rw [catchUpLoop]; simp [h0]
  by_cases h : next ≤ now
  · rw [catchUpLoop_step interval now next h0 h]
    have := catchUpLoop_snd_eq interval now (next + interval)
    simp only [this]
    ring
  · rw [catchUpLoop_stop interval now next (Nat.not_le.mp h)]
    simp
termination_by now + 1 - next
decreasing_by omega

/-! ## Keeper-loop fold lemmas -/

theorem processSchedule_not_due (now : Nat)
    (acc : List (Nat × InsurancePolicy) × List (Nat × PremiumSchedule) × List Nat)
    (e : Nat × PremiumSchedule) (h : ¬dueNow now e.2) :
    processSchedule now acc e = acc := by
  simp [processSchedule, h]

theorem processSchedule_due (now : Nat)
    (P : List (Nat × InsurancePolicy)) (S : List (Nat × PremiumSchedule))
    (E : List Nat) (k : Nat) (sch : PremiumSchedule) (h : dueNow now sch) :
    processSchedule now (P, S, E) (k, sch) =
      (stepPolicies now P sch.policy_id,
       mapSet S k (stepSchedule now sch), E ++ [k]) := by
  simp [processSchedule, h]

theorem foldl_schedules_get_not_mem (now : Nat)
    (L : List (Nat × PremiumSchedule))
    (P : List (Nat × InsurancePolicy)) (S : List (Nat × PremiumSchedule))
    (E : List Nat) (k : Nat) (hk : k ∉ L.map Prod.fst) :
    mapGet (L.foldl (processSchedule now) (P, S, E)).2.1 k = mapGet S k := by
  induction L generalizing P S E with
  | nil => rfl
  | cons e rest ih =>
    obtain ⟨k₀, sch₀⟩ := e
    simp only [List.map_cons, List.mem_cons] at hk
    push_neg at hk
    by_cases hd : dueNow now sch₀
    · rw [List.foldl_cons, processSchedule_due now P S E k₀ sch₀ hd,
        ih _ _ _ hk.2, mapGet_mapSet_ne _ _ hk.1]
    · rw [List.foldl_cons, processSchedule_not_due now _ _ hd]
      exact ih _ _ _ hk.2

theorem foldl_schedules_get (now : Nat) (L : List (Nat × PremiumSchedule))
    (P : List (Nat × InsurancePolicy)) (S : List (Nat × PremiumSchedule))
    (E : List Nat) (k : Nat) (sch : PremiumSchedule)
    (hnod : (L.map Prod.fst).Nodup) (hmem : (k, sch) ∈ L) :
    mapGet (L.foldl (processSchedule now) (P, S, E)).2.1 k =
      if dueNow now sch then some (stepSchedule now sch) else mapGet S k := by
  induction L generalizing P S E with
  | nil => simp at hmem
  | cons e rest ih =>
    obtain ⟨k₀, sch₀⟩ := e
    simp only [List.map_cons, List.nodup_cons] at hnod
    rcases List.mem_cons.mp hmem with h | h
    · injection h with h1 h2
      subst h1; subst h2
      have hk : k ∉ rest.map Prod.fst := hnod.1
      by_cases hd : dueNow now sch
      · rw [List.foldl_cons, processSchedule_due now P S E k sch hd,
          foldl_schedules_get_not_mem now rest _ _ _ k hk,
          mapGet_mapSet_self, if_pos hd]
      · rw [List.foldl_cons, processSchedule_not_due now _ _ hd,
          foldl_schedules_get_not_mem now rest _ _ _ k hk, if_neg hd]
    · have hk : k ≠ k₀ := by
        rintro rfl
        exact hnod.1 (List.mem_map.mpr ⟨_, h, rfl⟩)
      by_cases hd : dueNow now sch₀
      · rw [List.foldl_cons, processSchedule_due now P S E k₀ sch₀ hd,
          ih _ _ _ hnod.2 h, mapGet_mapSet_ne _ _ hk]
      · rw [List.foldl_cons, processSchedule_not_due now _ _ hd]
        exact ih _ _ _ hnod.2 h

theorem foldl_executed (now : Nat) (L : List (Nat × PremiumSchedule))
    (P : List (Nat × InsurancePolicy)) (S : List (Nat × PremiumSchedule))
    (E : List Nat) :
    (L.foldl (processSchedule now) (P, S, E)).2.2 =
      E ++ (L.filter (fun e => decide (dueNow now e.2))).map Prod.fst := by
  induction L generalizing P S E with
  | nil => simp
  | cons e rest ih =>
    obtain ⟨k₀, sch₀⟩ := e
    by_cases hd : dueNow now sch₀
    · rw [List.foldl_cons, processSchedule_due now P S E k₀ sch₀ hd, ih]
      simp [hd]
    · rw [List.foldl_cons, processSchedule_not_due now _ _ hd, ih]
      simp [hd]

theorem foldl_keys (now : Nat) (L : List (Nat × PremiumSchedule))
    (P : List (Nat × InsurancePolicy)) (S : List (Nat × PremiumSchedule))
    (E : List Nat) (hsub : ∀ e ∈ L, e.1 ∈ S.map Prod.fst) :
    (L.foldl (processSchedule now) (P, S, E)).2.1.map Prod.fst =
      S.map Prod.fst := by
  induction L generalizing P S E with
  | nil => rfl
  | cons e rest ih =>
    obtain ⟨k₀, sch₀⟩ := e
    by_cases hd : dueNow now sch₀
    · rw [List.foldl_cons, processSchedule_due now P S E k₀ sch₀ hd]
      have hkeys := keys_mapSet_of_mem S k₀ (stepSchedule now sch₀)
        (hsub _ (List.mem_cons_self _ _))
      rw [ih _ _ _ (fun e he => hkeys ▸ hsub e (List.mem_cons_of_mem _ he)),
        hkeys]
    · rw [List.foldl_cons, processSchedule_not_due now _ _ hd]
      exact ih _ _ _ (fun e he => hsub e (List.mem_cons_of_mem _ he))

/-- A policy slot that is absent or inactive is never written by the
policy-renewal half of the keeper loop. -/
theorem stepPolicies_stuck (now : Nat) (P : List (Nat × InsurancePolicy))
    (q : Nat)
    (hq : mapGet P q = none ∨ ∃ p, mapGet P q = some p ∧ p.active = false) :
    stepPolicies now P q = P := by
  unfold stepPolicies
  rcases hq with h | ⟨p, h, hp⟩
  · rw [h]
  · rw [h]
    simp [hp]

theorem stepPolicies_get_ne (now : Nat) (P : List (Nat × InsurancePolicy))
    (pid q : Nat) (h : q ≠ pid) :
    mapGet (stepPolicies now P pid) q = mapGet P q := by
  unfold stepPolicies
  cases hg : mapGet P pid with
  | none => rfl
  | some p =>
    by_cases hp : p.active
    · simp only [hp, if_true]
      exact mapGet_mapSet_ne _ _ h
    · simp [hp]

theorem foldl_policies_get_stuck (now : Nat)
    (L : List (Nat × PremiumSchedule))
    (P : List (Nat × InsurancePolicy)) (S : List (Nat × PremiumSchedule))
    (E : List Nat) (q : Nat)
    (hq : mapGet P q = none ∨ ∃ p, mapGet P q = some p ∧ p.active = false) :
    mapGet (L.foldl (processSchedule now) (P, S, E)).1 q = mapGet P q := by
  induction L generalizing P S E with
  | nil => rfl
  | cons e rest ih =>
    obtain ⟨k₀, sch₀⟩ := e
    by_cases hd : dueNow now sch₀
    · rw [List.foldl_cons, processSchedule_due now P S E k₀ sch₀ hd]
      have hpres : mapGet (stepPolicies now P sch₀.policy_id) q = mapGet P q := by
        by_cases hpid : q = sch₀.policy_id
        · subst hpid
          rw [stepPolicies_stuck now P _ hq]
        · exact stepPolicies_get_ne now P _ q hpid
      rw [ih _ _ _ (by rw [hpres]; exact hq), hpres]
    · rw [List.foldl_cons, processSchedule_not_due now _ _ hd]
      exact ih _ _ _ hq

/-- After `stepSchedule`, a schedule is never still due: a recurring one has
been advanced strictly past `now` by the catch-up loop, and a one-shot one
has been deactivated. -/
theorem stepSchedule_not_due (now : Nat) (sch : PremiumSchedule) :
    ¬dueNow now (stepSchedule now sch) := by
  intro hc
  unfold stepSchedule at hc
  split at hc
  · rename_i hcond
    have hI : 0 < sch.interval := hcond.2
    have h2 : (catchUpLoop sch.interval now (sch.next_due + sch.interval)).2 ≤ now :=
      hc.2
    exact absurd h2 (Nat.not_le.mpr
      (catchUpLoop_gt sch.interval now (sch.next_due + sch.interval) (by omega)))
  · exact absurd hc.1 (by simp)

theorem foldl_id_of_not_due (now : Nat) (L : List (Nat × PremiumSchedule))
    (acc : List (Nat × InsurancePolicy) × List (Nat × PremiumSchedule) × List Nat)
    (h : ∀ e ∈ L, ¬dueNow now e.2) :
    L.foldl (processSchedule now) acc = acc := by
  induction L generalizing acc with
  | nil => rfl
  | cons e rest ih =>
    rw [List.foldl_cons, processSchedule_not_due now _ _ (h e (List.mem_cons_self _ _))]
    exact ih _ (fun e he => h e (List.mem_cons_of_mem _ he))

/-! ## The bills module's recurrence (spec-modelled) -/

/-- Modelled from the spec: the bills module's obligation record
(§3 "Obligation"); the contract source `bill_payments/src/lib.rs` is not
under `src/`, only its test suite is. -/
structure Bill where
  id : Nat
  owner : Address
  amount : Int
  due_date : Nat
  recurring : Bool
  frequency_days : Nat
  paid : Bool
  paid_at : Option Nat
deriving Repr, DecidableEq

/-- Modelled from the spec: the unpaid successor obligation synthesized for
a recurring bill, with `due_date = original.due_date + frequency_days *
86400` computed from the original due date, never from `now` (§4.1;
matching `test_recurring_bill` in `src/bill_payments/src/test.rs`). -/
def billSuccessor (b : Bill) (new_id : Nat) : Bill :=
  { b with id := new_id,
           due_date := b.due_date + b.frequency_days * 86400,
           paid := false, paid_at := none }

/-- Modelled from the spec: `pay` on a bill marks it paid at `now` and, if
recurring, synthesizes the successor (§4.1). -/
def pay_bill (b : Bill) (now new_id : Nat) : Bill × Option Bill :=
  ({ b with paid := true, paid_at := some now },
   if b.recurring then some (billSuccessor b new_id) else none)

/-! ## Concrete fixtures for counterexamples and witnesses -/

/-- A freshly deployed, empty, unpaused instance storage. -/
def emptyState : ContractState :=
  { policies := [], schedules := [], next_id := 0, next_sched_id := 0,
    premium_totals := none, paused := false, pausedFns := [] }

/-- Fixture: an active policy owned by address `0`, renewal due at
`1000000`. -/
def policyFix : InsurancePolicy :=
  { id := 1, owner := 0, name := "Life", coverage_type := "life",
    monthly_premium := 100, coverage_amount := 1000, active := true,
    next_payment_date := 1000000, schedule_id := none }

/-- Fixture: contract holding just `policyFix` under id 1. -/
def stateFix : ContractState :=
  { emptyState with policies := [(1, policyFix)], next_id := 1 }

/-- Fixture: an active recurring schedule with anchor `next_due = 1000` and
`interval = 100`. -/
def schedFix : PremiumSchedule :=
  { id := 1, owner := 0, policy_id := 7, next_due := 1000, interval := 100,
    recurring := true, active := true, created_at := 0,
    last_executed := none, missed_count := 5 }

/-- Fixture: contract holding just `schedFix` under id 1 (its `policy_id`
points at no stored policy). -/
def stateSched : ContractState :=
  { emptyState with schedules := [(1, schedFix)], next_sched_id := 1 }

/-- Fixture: a recurring bill due at `1000000` every 30 days. -/
def billFix : Bill :=
  { id := 1, owner := 0, amount := 10000, due_date := 1000000,
    recurring := true, frequency_days := 30, paid := false,
    paid_at := none }

/-! ## C1 -/

/-- C1 counterexample: the claim asserts that after `pay_premium` succeeds
the stored `next_payment_date` equals the original due date plus one 30-day
interval.  On a policy due at `1000000` paid at `1000500`, the code stores
`1000500 + 30 * 86400 = 3592500`, not `1000000 + 30 * 86400 = 3592000`:
the renewal date is anchored to the payment timestamp. -/
theorem C1_counterexample :
    (pay_premium stateFix 1000500 0 1).toOption.bind
        (fun s' => (mapGet s'.policies 1).map (fun p => p.next_payment_date))
      = some 3592500 ∧
    (mapGet stateFix.policies 1).map (fun p => p.next_payment_date)
      = some 1000000 ∧
    (3592500 : Nat) ≠ 1000000 + 30 * 86400 := by
  refine ⟨by decide, by decide, by decide⟩

/-- C1 (amended): the bills module anchors a recurring successor at
`original.due_date + frequency_days * 86400`, independent of the payment
timestamp; but the insurance module's `pay_premium` anchors the stored
`next_payment_date` to the payment timestamp: it always stores
`now + 30 * 86400`, so paying early or late shifts the renewal date. -/
theorem C1_pay_anchoring (s : ContractState) (now : Nat) (caller : Address)
    (policy_id : Nat) (p : InsurancePolicy) (s' : ContractState)
    (hp : mapGet s.policies policy_id = some p)
    (hok : pay_premium s now caller policy_id = .ok s')
    (b : Bill) (now₁ now₂ new_id : Nat) (hrec : b.recurring = true) :
    mapGet s'.policies policy_id =
      some { p with next_payment_date := now + 30 * 86400 } ∧
    (pay_bill b now₁ new_id).2 = (pay_bill b now₂ new_id).2 ∧
    (pay_bill b now₁ new_id).2 = some (billSuccessor b new_id) ∧
    (billSuccessor b new_id).due_date =
      b.due_date + b.frequency_days * 86400 ∧
    (billSuccessor b new_id).paid = false := by
  refine ⟨?_, by simp [pay_bill], by simp [pay_bill, hrec],
    by simp [billSuccessor], by simp [billSuccessor]⟩
  unfold pay_premium at hok
  cases hpause : require_not_paused s .pay_prem with
  | error e => rw [hpause] at hok; exact absurd hok (by simp [Except.bind])
  | ok u =>
    rw [hpause] at hok
    simp only [Except.bind, hp] at hok
    by_cases hown : p.owner ≠ caller
    · rw [if_pos hown] at hok; exact absurd hok (by simp)
    · rw [if_neg hown] at hok
      by_cases hact : ¬p.active
      · rw [if_pos hact] at hok; exact absurd hok (by simp)
      · rw [if_neg hact] at hok
        injection hok with hok
        subst hok
        exact mapGet_mapSet_self ..

/-! ## C2 -/

/-- C2: executing an active recurring schedule with interval `I` and anchor
`next_due = T` at time `T + 3I + d` (`0 ≤ d < I`) fires it exactly once,
adds exactly 3 to `missed_count`, and leaves `next_due = T + 4I`, which
exceeds both `T + 3I` and the current time.  (`T + 4I < 2 ^ 64` keeps the
unsigned 64-bit additions of the source exact.) -/
theorem C2_catch_up (s : ContractState) (k : Nat) (sch : PremiumSchedule)
    (T I d : Nat)
    (hnod : (s.schedules.map Prod.fst).Nodup)
    (hmem : (k, sch) ∈ s.schedules)
    (hact : sch.active = true) (hrec : sch.recurring = true)
    (hIv : sch.interval = I) (hT : sch.next_due = T)
    (hI : 0 < I) (hd : d < I) (hbound : T + 4 * I < 2 ^ 64) :
    (execute_due_premium_schedules s (T + 3 * I + d)).1.count k = 1 ∧
    mapGet (execute_due_premium_schedules s (T + 3 * I + d)).2.schedules k =
      some { sch with last_executed := some (T + 3 * I + d),
                      missed_count := sch.missed_count + 3,
                      next_due := T + 4 * I } ∧
    T + 3 * I < T + 4 * I ∧ T + 3 * I + d < T + 4 * I := by
  have hdue : dueNow (T + 3 * I + d) sch := ⟨hact, by omega⟩
  have hc : catchUpLoop I (T + 3 * I + d) (T + I) = (3, T + 4 * I) := by
    rw [catchUpLoop_step I (T + 3 * I + d) (T + I) (by omega) (by omega),
      catchUpLoop_step I (T + 3 * I + d) (T + I + I) (by omega) (by omega),
      catchUpLoop_step I (T + 3 * I + d) (T + I + I + I) (by omega) (by omega),
      catchUpLoop_stop I (T + 3 * I + d) (T + I + I + I + I) (by omega)]
    simp <;> omega
  have hstep : stepSchedule (T + 3 * I + d) sch =
      { sch with last_executed := some (T + 3 * I + d),
                 missed_count := sch.missed_count + 3,
                 next_due := T + 4 * I } := by
    unfold stepSchedule
    rw [if_pos ⟨hrec, by omega⟩, hIv, hT, hc]
  refine ⟨?_, ?_, by omega, by omega⟩
  · have hex : (execute_due_premium_schedules s (T + 3 * I + d)).1 =
        (s.schedules.filter
          (fun e => decide (dueNow (T + 3 * I + d) e.2))).map Prod.fst := by
      unfold execute_due_premium_schedules
      rw [foldl_executed]
      simp
    rw [hex]
    refine List.count_eq_one_of_mem
      (hnod.sublist ((List.filter_sublist _).map Prod.fst)) ?_
    exact List.mem_map.mpr
      ⟨(k, sch), List.mem_filter.mpr ⟨hmem, by simpa using hdue⟩, rfl⟩
  · have hget := foldl_schedules_get (T + 3 * I + d) s.schedules s.policies
      s.schedules [] k sch hnod hmem
    rw [if_pos hdue] at hget
    unfold execute_due_premium_schedules
    rw [hget, hstep]

/-- Witness for `C2_catch_up`: `schedFix` (`T = 1000`, `I = 100`,
`missed_count = 5`) executed at `1350 = T + 3I + 50`. -/
theorem C2_catch_up_witness :
    (execute_due_premium_schedules stateSched (1000 + 3 * 100 + 50)).1.count 1
      = 1 ∧
    mapGet (execute_due_premium_schedules
        stateSched (1000 + 3 * 100 + 50)).2.schedules 1 =
      some { schedFix with last_executed := some (1000 + 3 * 100 + 50),
                           missed_count := schedFix.missed_count + 3,
                           next_due := 1000 + 4 * 100 } ∧
    1000 + 3 * 100 < 1000 + 4 * 100 ∧
    1000 + 3 * 100 + 50 < 1000 + 4 * 100 :=
  C2_catch_up stateSched 1 schedFix 1000 100 50 (by decide) (by decide)
    (by decide) (by decide) (by decide) (by decide) (by decide) (by decide)
    (by decide)

/-! ## C3 -/

/-- C3: `execute_due_premium_schedules` is idempotent under over-invocation:
an immediate second call at the same timestamp executes nothing (empty
result list) and leaves the state exactly as the first call left it; and
schedules that are inactive or not yet due are left untouched by any
call. -/
theorem C3_idempotent (s : ContractState) (now : Nat)
    (hnod : (s.schedules.map Prod.fst).Nodup) :
    (execute_due_premium_schedules
        (execute_due_premium_schedules s now).2 now).1 = [] ∧
    (execute_due_premium_schedules
        (execute_due_premium_schedules s now).2 now).2 =
      (execute_due_premium_schedules s now).2 ∧
    (∀ k sch, (k, sch) ∈ s.schedules → ¬dueNow now sch →
      mapGet (execute_due_premium_schedules s now).2.schedules k
        = some sch) := by
  have hexS : (execute_due_premium_schedules s now).2.schedules =
      (s.schedules.foldl (processSchedule now)
        (s.policies, s.schedules, [])).2.1 := rfl
  have hkeys : (execute_due_premium_schedules s now).2.schedules.map Prod.fst =
      s.schedules.map Prod.fst := by
    rw [hexS]
    exact foldl_keys now s.schedules s.policies s.schedules []
      (fun e he => List.mem_map.mpr ⟨e, he, rfl⟩)
  have hnod1 :
      ((execute_due_premium_schedules s now).2.schedules.map Prod.fst).Nodup := by
    rw [hkeys]; exact hnod
  have huntouched : ∀ k sch, (k, sch) ∈ s.schedules → ¬dueNow now sch →
      mapGet (execute_due_premium_schedules s now).2.schedules k = some sch := by
    intro k sch hmem hnd
    have hget := foldl_schedules_get now s.schedules s.policies s.schedules []
      k sch hnod hmem
    rw [if_neg hnd] at hget
    rw [hexS, hget]
    exact mapGet_eq_some_of_mem hnod hmem
  have hall : ∀ e ∈ (execute_due_premium_schedules s now).2.schedules,
      ¬dueNow now e.2 := by
    rintro ⟨k, v⟩ hmem1
    have hv : mapGet (execute_due_premium_schedules s now).2.schedules k
        = some v := mapGet_eq_some_of_mem hnod1 hmem1
    have hk0 : k ∈ s.schedules.map Prod.fst := by
      rw [← hkeys]
      exact List.mem_map.mpr ⟨(k, v), hmem1, rfl⟩
    obtain ⟨sch0, hsch0⟩ := Option.isSome_iff_exists.mp
      (mapGet_isSome_of_mem_keys hk0)
    have hmem0 : (k, sch0) ∈ s.schedules := mem_of_mapGet_eq_some hsch0
    have hget := foldl_schedules_get now s.schedules s.policies s.schedules []
      k sch0 hnod hmem0
    rw [← hexS, hv] at hget
    by_cases hd : dueNow now sch0
    · rw [if_pos hd] at hget
      injection hget with hget
      rw [show ((k, v) : Nat × PremiumSchedule).2 = v from rfl, hget]
      exact stepSchedule_not_due now sch0
    · rw [if_neg hd, hsch0] at hget
      injection hget with hget
      rw [show ((k, v) : Nat × PremiumSchedule).2 = v from rfl, hget]
      exact hd
  have hid : (execute_due_premium_schedules s now).2.schedules.foldl
      (processSchedule now)
      ((execute_due_premium_schedules s now).2.policies,
       (execute_due_premium_schedules s now).2.schedules, []) =
      ((execute_due_premium_schedules s now).2.policies,
       (execute_due_premium_schedules s now).2.schedules, []) :=
    foldl_id_of_not_due now _ _ hall
  refine ⟨?_, ?_, huntouched⟩
  · have h1 : (execute_due_premium_schedules
        (execute_due_premium_schedules s now).2 now).1 =
      ((execute_due_premium_schedules s now).2.schedules.foldl
        (processSchedule now)
        ((execute_due_premium_schedules s now).2.policies,
         (execute_due_premium_schedules s now).2.schedules, [])).2.2 := rfl
    rw [h1, hid]
  · have h2 : (execute_due_premium_schedules
        (execute_due_premium_schedules s now).2 now).2 =
      { (execute_due_premium_schedules s now).2 with
        policies := ((execute_due_premium_schedules s now).2.schedules.foldl
          (processSchedule now)
          ((execute_due_premium_schedules s now).2.policies,
           (execute_due_premium_schedules s now).2.schedules, [])).1,
        schedules := ((execute_due_premium_schedules s now).2.schedules.foldl
          (processSchedule now)
          ((execute_due_premium_schedules s now).2.policies,
           (execute_due_premium_schedules s now).2.schedules, [])).2.1 } := rfl
    rw [h2, hid]

/-- Witness for `C3_idempotent` on the `stateSched` fixture at `1350`. -/
theorem C3_idempotent_witness :
    (execute_due_premium_schedules
        (execute_due_premium_schedules stateSched 1350).2 1350).1 = [] ∧
    (execute_due_premium_schedules
        (execute_due_premium_schedules stateSched 1350).2 1350).2 =
      (execute_due_premium_schedules stateSched 1350).2 ∧
    (∀ k sch, (k, sch) ∈ stateSched.schedules → ¬dueNow 1350 sch →
      mapGet (execute_due_premium_schedules stateSched 1350).2.schedules k
        = some sch) :=
  C3_idempotent stateSched 1350 (by decide)

/-! ## C10 -/

/-- C10: when an active schedule is due but its linked policy is absent or
inactive, the keeper call still reports the schedule exactly once, still
stamps `last_executed`, still advances a recurring schedule strictly past
`now` (or deactivates a one-shot schedule), and leaves the linked policy
slot untouched. -/
theorem C10_orphan_schedule (s : ContractState) (now k : Nat)
    (sch : PremiumSchedule)
    (hnod : (s.schedules.map Prod.fst).Nodup)
    (hmem : (k, sch) ∈ s.schedules)
    (hdue : dueNow now sch)
    (hpol : mapGet s.policies sch.policy_id = none ∨
      ∃ p, mapGet s.policies sch.policy_id = some p ∧ p.active = false) :
    (execute_due_premium_schedules s now).1.count k = 1 ∧
    mapGet (execute_due_premium_schedules s now).2.schedules k =
      some (stepSchedule now sch) ∧
    (stepSchedule now sch).last_executed = some now ∧
    (sch.recurring = true ∧ 0 < sch.interval →
      now < (stepSchedule now sch).next_due) ∧
    (¬(sch.recurring = true ∧ 0 < sch.interval) →
      (stepSchedule now sch).active = false) ∧
    mapGet (execute_due_premium_schedules s now).2.policies sch.policy_id =
      mapGet s.policies sch.policy_id := by
  refine ⟨?_, ?_, ?_, ?_, ?_, ?_⟩
  · have hex : (execute_due_premium_schedules s now).1 =
        (s.schedules.filter
          (fun e => decide (dueNow now e.2))).map Prod.fst := by
      unfold execute_due_premium_schedules
      rw [foldl_executed]
      simp
    rw [hex]
    refine List.count_eq_one_of_mem
      (hnod.sublist ((List.filter_sublist _).map Prod.fst)) ?_
    exact List.mem_map.mpr
      ⟨(k, sch), List.mem_filter.mpr ⟨hmem, by simpa using hdue⟩, rfl⟩
  · have hget := foldl_schedules_get now s.schedules s.policies s.schedules []
      k sch hnod hmem
    rw [if_pos hdue] at hget
    exact hget
  · unfold stepSchedule
    split <;> rfl
  · intro hc
    unfold stepSchedule
    rw [if_pos hc]
    exact catchUpLoop_gt sch.interval now (sch.next_due + sch.interval)
      (by omega)
  · intro hc
    unfold stepSchedule
    rw [if_neg hc]
  · exact foldl_policies_get_stuck now s.schedules s.policies s.schedules []
      sch.policy_id hpol

/-- Witness for `C10_orphan_schedule`: `stateSched`'s schedule points at
policy 7, which is not stored. -/
theorem C10_orphan_schedule_witness :
    (execute_due_premium_schedules stateSched 1350).1.count 1 = 1 ∧
    mapGet (execute_due_premium_schedules stateSched 1350).2.schedules 1 =
      some (stepSchedule 1350 schedFix) ∧
    (stepSchedule 1350 schedFix).last_executed = some 1350 ∧
    (schedFix.recurring = true ∧ 0 < schedFix.interval →
      1350 < (stepSchedule 1350 schedFix).next_due) ∧
    (¬(schedFix.recurring = true ∧ 0 < schedFix.interval) →
      (stepSchedule 1350 schedFix).active = false) ∧
    mapGet (execute_due_premium_schedules stateSched 1350).2.policies
        schedFix.policy_id =
      mapGet stateSched.policies schedFix.policy_id :=
  C10_orphan_schedule stateSched 1350 1 schedFix (by decide) (by decide)
    (by exact ⟨rfl, by decide⟩) (Or.inl (by decide))

/-! ## C7 -/

/-- Fixture: `stateSched` with the global pause flag set. -/
def pausedSchedState : ContractState := { stateSched with paused := true }

/-- C7 counterexample: the claim asserts every mutating entry point,
including the keeper call, checks the pause flags first.  But
`execute_due_premium_schedules` performs no pause check: on a globally
paused contract holding a due schedule it still executes the schedule and
advances its stored `next_due` from 1000 to 1400. -/
theorem C7_counterexample :
    pausedSchedState.paused = true ∧
    (execute_due_premium_schedules pausedSchedState 1350).1 = [1] ∧
    (mapGet (execute_due_premium_schedules pausedSchedState 1350).2.schedules
        1).map (fun x => x.next_due) = some 1400 ∧
    (mapGet pausedSchedState.schedules 1).map (fun x => x.next_due)
      = some 1000 := by
  have hc : catchUpLoop 100 1350 1100 = (3, 1400) := by
    simp [catchUpLoop_step, catchUpLoop_stop]
  refine ⟨rfl, ?_, ?_, by decide⟩
  · have hex : (execute_due_premium_schedules pausedSchedState 1350).1 =
        [] ++ (pausedSchedState.schedules.filter
          (fun e => decide (dueNow 1350 e.2))).map Prod.fst := by
      unfold execute_due_premium_schedules
      rw [foldl_executed]
    rw [hex]
    decide
  · show (mapGet (([(1, schedFix)].foldl (processSchedule 1350)
        (([] : List (Nat × InsurancePolicy)), [(1, schedFix)], [])).2.1)
        1).map (fun x => x.next_due) = some 1400
    rw [List.foldl_cons,
      processSchedule_due 1350 [] [(1, schedFix)] [] 1 schedFix (by decide),
      List.foldl_nil, mapGet_mapSet_self]
    have hstep : stepSchedule 1350 schedFix =
        { schedFix with last_executed := some 1350,
                        missed_count := schedFix.missed_count + 3,
                        next_due := 1400 } := by
      unfold stepSchedule
      rw [if_pos (by decide)]
      norm_num [schedFix, hc]
    rw [hstep]
    rfl

/-- C7 (amended): every mutating entry point other than the keeper call
(`create_policy`, `pay_premium`, `batch_pay_premiums`, `deactivate_policy`,
`create_premium_schedule`, `modify_premium_schedule`,
`cancel_premium_schedule`) first checks the global pause flag (failing with
`ContractPaused`) and then its per-function pause entry (failing with
`FunctionPaused`) before any state change; but
`execute_due_premium_schedules` checks neither and behaves identically
whatever the global pause flag is. -/
theorem C7_pause_coverage (s : ContractState) (now : Nat) (a : Address)
    (nm ct : String) (mp ca : Int) (pid sid nd iv : Nat) (ids : List Nat)
    (hp : s.paused = true) (bl : Bool) :
    create_policy s now a nm ct mp ca = .error .ContractPaused ∧
    pay_premium s now a pid = .error .ContractPaused ∧
    batch_pay_premiums s now a ids = .error .ContractPaused ∧
    deactivate_policy s a pid = .error .ContractPaused ∧
    create_premium_schedule s now a pid nd iv = .error .ContractPaused ∧
    modify_premium_schedule s now a sid nd iv = .error .ContractPaused ∧
    cancel_premium_schedule s a sid = .error .ContractPaused ∧
    (∀ s₂ : ContractState, s₂.paused = false →
      is_function_paused s₂ .crt_pol = true →
      create_policy s₂ now a nm ct mp ca = .error .FunctionPaused) ∧
    (∀ s₂ : ContractState, s₂.paused = false →
      is_function_paused s₂ .pay_prem = true →
      pay_premium s₂ now a pid = .error .FunctionPaused ∧
      batch_pay_premiums s₂ now a ids = .error .FunctionPaused) ∧
    (∀ s₂ : ContractState, s₂.paused = false →
      is_function_paused s₂ .deact = true →
      deactivate_policy s₂ a pid = .error .FunctionPaused) ∧
    (∀ s₂ : ContractState, s₂.paused = false →
      is_function_paused s₂ .crt_sch = true →
      create_premium_schedule s₂ now a pid nd iv = .error .FunctionPaused) ∧
    (∀ s₂ : ContractState, s₂.paused = false →
      is_function_paused s₂ .mod_sch = true →
      modify_premium_schedule s₂ now a sid nd iv = .error .FunctionPaused) ∧
    (∀ s₂ : ContractState, s₂.paused = false →
      is_function_paused s₂ .can_sch = true →
      cancel_premium_schedule s₂ a sid = .error .FunctionPaused) ∧
    (execute_due_premium_schedules { s with paused := bl } now).1 =
      (execute_due_premium_schedules s now).1 ∧
    (execute_due_premium_schedules { s with paused := bl } now).2.schedules =
      (execute_due_premium_schedules s now).2.schedules ∧
    (execute_due_premium_schedules { s with paused := bl } now).2.policies =
      (execute_due_premium_schedules s now).2.policies := by
  have hrp : ∀ f, require_not_paused s f = .error .ContractPaused := by
    intro f
    unfold require_not_paused
    rw [if_pos hp]
  have hrf : ∀ (s₂ : ContractState) f, s₂.paused = false →
      is_function_paused s₂ f = true →
      require_not_paused s₂ f = .error .FunctionPaused := by
    intro s₂ f h1 h2
    unfold require_not_paused
    rw [if_neg (by simp [h1]), if_pos h2]
  refine ⟨?_, ?_, ?_, ?_, ?_, ?_, ?_, ?_, ?_, ?_, ?_, ?_, ?_, rfl, rfl, rfl⟩
  · unfold create_policy; rw [hrp]; rfl
  · unfold pay_premium; rw [hrp]; rfl
  · unfold batch_pay_premiums; rw [hrp]; rfl
  · unfold deactivate_policy; rw [hrp]; rfl
  · unfold create_premium_schedule; rw [hrp]; rfl
  · unfold modify_premium_schedule; rw [hrp]; rfl
  · unfold cancel_premium_schedule; rw [hrp]; rfl
  · intro s₂ h1 h2; unfold create_policy; rw [hrf s₂ _ h1 h2]; rfl
  · intro s₂ h1 h2
    constructor
    · unfold pay_premium; rw [hrf s₂ _ h1 h2]; rfl
    · unfold batch_pay_premiums; rw [hrf s₂ _ h1 h2]; rfl
  · intro s₂ h1 h2; unfold deactivate_policy; rw [hrf s₂ _ h1 h2]; rfl
  · intro s₂ h1 h2; unfold create_premium_schedule; rw [hrf s₂ _ h1 h2]; rfl
  · intro s₂ h1 h2; unfold modify_premium_schedule; rw [hrf s₂ _ h1 h2]; rfl
  · intro s₂ h1 h2; unfold cancel_premium_schedule; rw [hrf s₂ _ h1 h2]; rfl

/-- Witness for `C7_pause_coverage` on the paused fixture. -/
theorem C7_pause_coverage_witness :
    create_policy pausedSchedState 1350 0 "n" "c" 1 1
      = .error .ContractPaused ∧
    pay_premium pausedSchedState 1350 0 1 = .error .ContractPaused ∧
    batch_pay_premiums pausedSchedState 1350 0 [1] = .error .ContractPaused ∧
    deactivate_policy pausedSchedState 0 1 = .error .ContractPaused ∧
    create_premium_schedule pausedSchedState 1350 0 1 2000 100
      = .error .ContractPaused ∧
    modify_premium_schedule pausedSchedState 1350 0 1 2000 100
      = .error .ContractPaused ∧
    cancel_premium_schedule pausedSchedState 0 1 = .error .ContractPaused ∧
    (∀ s₂ : ContractState, s₂.paused = false →
      is_function_paused s₂ .crt_pol = true →
      create_policy s₂ 1350 0 "n" "c" 1 1 = .error .FunctionPaused) ∧
    (∀ s₂ : ContractState, s₂.paused = false →
      is_function_paused s₂ .pay_prem = true →
      pay_premium s₂ 1350 0 1 = .error .FunctionPaused ∧
      batch_pay_premiums s₂ 1350 0 [1] = .error .FunctionPaused) ∧
    (∀ s₂ : ContractState, s₂.paused = false →
      is_function_paused s₂ .deact = true →
      deactivate_policy s₂ 0 1 = .error .FunctionPaused) ∧
    (∀ s₂ : ContractState, s₂.paused = false →
      is_function_paused s₂ .crt_sch = true →
      create_premium_schedule s₂ 1350 0 1 2000 100
        = .error .FunctionPaused) ∧
    (∀ s₂ : ContractState, s₂.paused = false →
      is_function_paused s₂ .mod_sch = true →
      modify_premium_schedule s₂ 1350 0 1 2000 100
        = .error .FunctionPaused) ∧
    (∀ s₂ : ContractState, s₂.paused = false →
      is_function_paused s₂ .can_sch = true →
      cancel_premium_schedule s₂ 0 1 = .error .FunctionPaused) ∧
    (execute_due_premium_schedules { pausedSchedState with paused := false }
        1350).1 =
      (execute_due_premium_schedules pausedSchedState 1350).1 ∧
    (execute_due_premium_schedules { pausedSchedState with paused := false }
        1350).2.schedules =
      (execute_due_premium_schedules pausedSchedState 1350).2.schedules ∧
    (execute_due_premium_schedules { pausedSchedState with paused := false }
        1350).2.policies =
      (execute_due_premium_schedules pausedSchedState 1350).2.policies :=
  C7_pause_coverage pausedSchedState 1350 0 "n" "c" 1 1 1 1 2000 100 [1]
    (by decide) false

/-! ## C8 -/

/-- C8 counterexample: the claim asserts `next_due` only ever moves forward
by whole positive multiples of the interval and is never moved backward once
past the current time.  `modify_premium_schedule` accepts any strictly
future value: at `now = 10` it moves a schedule's `next_due` from 1000 back
to 500, which is neither forward nor a multiple of the interval 100. -/
theorem C8_counterexample :
    (modify_premium_schedule stateSched 10 0 1 500 100).toOption.bind
        (fun r => (mapGet r.2.schedules 1).map (fun x => x.next_due))
      = some 500 ∧
    (mapGet stateSched.schedules 1).map (fun x => x.next_due) = some 1000 ∧
    (10 : Nat) < 1000 ∧ (500 : Nat) < 1000 ∧
    ¬∃ m : Nat, 500 = 1000 + m * 100 := by
  refine ⟨by decide, by decide, by decide, by decide, ?_⟩
  rintro ⟨m, hm⟩
  omega

/-- C8 (amended): the keeper call advances a due recurring schedule's
`next_due` only by a whole positive multiple of its interval, to the first
such point strictly beyond `now`, and leaves schedules that are not due
untouched; `cancel_premium_schedule` never changes `next_due`, and a
schedule freshly created by `create_premium_schedule` carries the requested
strictly-future `next_due`.  `modify_premium_schedule`, however, may set
`next_due` to any strictly future value, including moving it backward or by
a partial interval (see the counterexample). -/
theorem C8_next_due_movement (s : ContractState) (now k : Nat)
    (sch : PremiumSchedule)
    (hnod : (s.schedules.map Prod.fst).Nodup)
    (hmem : (k, sch) ∈ s.schedules) :
    (dueNow now sch → sch.recurring = true → 0 < sch.interval →
      ∃ m : Nat, 1 ≤ m ∧
        mapGet (execute_due_premium_schedules s now).2.schedules k =
          some { sch with last_executed := some now,
                          missed_count := sch.missed_count + (m - 1),
                          next_due := sch.next_due + m * sch.interval } ∧
        now < sch.next_due + m * sch.interval) ∧
    (¬dueNow now sch →
      mapGet (execute_due_premium_schedules s now).2.schedules k
        = some sch) ∧
    (∀ caller b s₂, cancel_premium_schedule s caller k = .ok (b, s₂) →
      (mapGet s₂.schedules k).map (fun x => x.next_due)
        = some sch.next_due) ∧
    (∀ owner pid nd iv sid s₂,
      create_premium_schedule s now owner pid nd iv = .ok (sid, s₂) →
      (mapGet s₂.schedules sid).map (fun x => x.next_due) = some nd ∧
      now < nd) := by
  refine ⟨?_, ?_, ?_, ?_⟩
  · intro hdue hrec hI
    have hget := foldl_schedules_get now s.schedules s.policies s.schedules []
      k sch hnod hmem
    rw [if_pos hdue] at hget
    have hsnd := catchUpLoop_snd_eq sch.interval now
      (sch.next_due + sch.interval)
    have e1 : (catchUpLoop sch.interval now
        (sch.next_due + sch.interval)).1 + 1 - 1 =
        (catchUpLoop sch.interval now (sch.next_due + sch.interval)).1 := by
      omega
    have e2 : sch.next_due + ((catchUpLoop sch.interval now
        (sch.next_due + sch.interval)).1 + 1) * sch.interval =
        (catchUpLoop sch.interval now (sch.next_due + sch.interval)).2 := by
      rw [hsnd]; ring
    refine ⟨(catchUpLoop sch.interval now (sch.next_due + sch.interval)).1 + 1,
      by omega, ?_, ?_⟩
    · have hstep : stepSchedule now sch =
          { sch with
            last_executed := some now,
            missed_count := sch.missed_count +
              ((catchUpLoop sch.interval now
                (sch.next_due + sch.interval)).1 + 1 - 1),
            next_due := sch.next_due +
              ((catchUpLoop sch.interval now
                (sch.next_due + sch.interval)).1 + 1) * sch.interval } := by
        unfold stepSchedule
        rw [if_pos ⟨hrec, hI⟩, e1, e2]
      rw [← hstep]
      exact hget
    · rw [e2]
      exact catchUpLoop_gt sch.interval now (sch.next_due + sch.interval)
        (by omega)
  · intro hnd
    have hget := foldl_schedules_get now s.schedules s.policies s.schedules []
      k sch hnod hmem
    rw [if_neg hnd] at hget
    rw [show (execute_due_premium_schedules s now).2.schedules =
      (s.schedules.foldl (processSchedule now)
        (s.policies, s.schedules, [])).2.1 from rfl, hget]
    exact mapGet_eq_some_of_mem hnod hmem
  · intro caller b s₂ hok
    unfold cancel_premium_schedule at hok
    cases hreq : require_not_paused s .can_sch with
    | error e => rw [hreq] at hok; exact absurd hok (by simp [Except.bind])
    | ok u =>
      rw [hreq] at hok
      simp only [Except.bind, mapGet_eq_some_of_mem hnod hmem] at hok
      by_cases how : sch.owner ≠ caller
      · rw [if_pos how] at hok; exact absurd hok (by simp)
      · rw [if_neg how] at hok
        injection hok with hok
        injection hok with hok1 hok2
        subst hok2
        show (mapGet (mapSet s.schedules k { sch with active := false })
          k).map (fun x => x.next_due) = some sch.next_due
        rw [mapGet_mapSet_self]
        rfl
  · intro owner pid nd iv sid s₂ hok
    unfold create_premium_schedule at hok
    cases hreq : require_not_paused s .crt_sch with
    | error e => rw [hreq] at hok; exact absurd hok (by simp [Except.bind])
    | ok u =>
      rw [hreq] at hok
      simp only [Except.bind] at hok
      cases hg : mapGet s.policies pid with
      | none => rw [hg] at hok; simp at hok
      | some p =>
        simp only [hg] at hok
        by_cases how : p.owner ≠ owner
        · rw [if_pos how] at hok; exact absurd hok (by simp)
        · rw [if_neg how] at hok
          by_cases hnd : nd ≤ now
          · rw [if_pos hnd] at hok; exact absurd hok (by simp)
          · rw [if_neg hnd] at hok
            injection hok with hok
            injection hok with hok1 hok2
            subst hok1
            subst hok2
            constructor
            · show (mapGet (mapSet s.schedules (s.next_sched_id + 1)
                ⟨s.next_sched_id + 1, owner, pid, nd, iv, decide (0 < iv),
                  true, now, none, 0⟩) (s.next_sched_id + 1)).map
                (fun x => x.next_due) = some nd
              rw [mapGet_mapSet_self]
              rfl
            · omega

/-- Witness for `C8_next_due_movement` on the `stateSched` fixture. -/
theorem C8_next_due_movement_witness :
    (dueNow 1350 schedFix → schedFix.recurring = true →
      0 < schedFix.interval →
      ∃ m : Nat, 1 ≤ m ∧
        mapGet (execute_due_premium_schedules stateSched 1350).2.schedules 1 =
          some { schedFix with last_executed := some 1350,
                               missed_count := schedFix.missed_count + (m - 1),
                               next_due := schedFix.next_due +
                                 m * schedFix.interval } ∧
        1350 < schedFix.next_due + m * schedFix.interval) ∧
    (¬dueNow 1350 schedFix →
      mapGet (execute_due_premium_schedules stateSched 1350).2.schedules 1
        = some schedFix) ∧
    (∀ caller b s₂,
      cancel_premium_schedule stateSched caller 1 = .ok (b, s₂) →
      (mapGet s₂.schedules 1).map (fun x => x.next_due)
        = some schedFix.next_due) ∧
    (∀ owner pid nd iv sid s₂,
      create_premium_schedule stateSched 1350 owner pid nd iv
        = .ok (sid, s₂) →
      (mapGet s₂.schedules sid).map (fun x => x.next_due) = some nd ∧
      1350 < nd) :=
  C8_next_due_movement stateSched 1350 1 schedFix (by decide) (by decide)

/-! ## C9 -/

/-- C9 counterexample: the claim asserts `create_premium_schedule` fails
with `InvalidTimestamp` whenever the supplied `next_due` is not in the
future.  But the policy lookup precedes the timestamp check: with
`next_due = 0 ≤ now = 5` and no stored policy, the call fails with
`PolicyNotFound` instead. -/
theorem C9_counterexample :
    create_premium_schedule emptyState 5 0 1 0 10 = .error .PolicyNotFound ∧
    (0 : Nat) ≤ 5 ∧
    InsuranceError.PolicyNotFound ≠ InsuranceError.InvalidTimestamp := by
  refine ⟨by decide, by decide, by decide⟩

/-- C9 (amended): provided the pause checks pass, `modify_premium_schedule`
fails with `InvalidTimestamp` whenever `next_due ≤ now`, and
`create_premium_schedule` does so provided additionally the policy exists
and is owned by the caller (the not-found/unauthorized checks take
precedence); every error leaves the state unchanged (errors carry no state
in this embedding, matching transaction rollback), and any successful
create or modify stores a strictly future `next_due`. -/
theorem C9_timestamp_validation (s : ContractState) (now : Nat)
    (owner caller : Address) (pid sid nd iv : Nat) (hnd : nd ≤ now) :
    (require_not_paused s .mod_sch = .ok () →
      modify_premium_schedule s now caller sid nd iv
        = .error .InvalidTimestamp) ∧
    (require_not_paused s .crt_sch = .ok () →
      ∀ p, mapGet s.policies pid = some p → p.owner = owner →
      create_premium_schedule s now owner pid nd iv
        = .error .InvalidTimestamp) ∧
    (∀ nd₂ iv₂ sid₂ s₂,
      create_premium_schedule s now owner pid nd₂ iv₂ = .ok (sid₂, s₂) →
      now < nd₂ ∧
      (mapGet s₂.schedules sid₂).map (fun x => x.next_due) = some nd₂) ∧
    (∀ nd₂ iv₂ b s₂,
      modify_premium_schedule s now caller sid nd₂ iv₂ = .ok (b, s₂) →
      now < nd₂ ∧
      (mapGet s₂.schedules sid).map (fun x => x.next_due) = some nd₂) := by
  refine ⟨?_, ?_, ?_, ?_⟩
  · intro hreq
    unfold modify_premium_schedule
    rw [hreq]
    simp only [Except.bind]
    rw [if_pos hnd]
  · intro hreq p hp hown
    unfold create_premium_schedule
    rw [hreq]
    simp only [Except.bind, hp]
    rw [if_neg (by simp [hown]), if_pos hnd]
  · intro nd₂ iv₂ sid₂ s₂ hok
    unfold create_premium_schedule at hok
    cases hreq : require_not_paused s .crt_sch with
    | error e => rw [hreq] at hok; exact absurd hok (by simp [Except.bind])
    | ok u =>
      rw [hreq] at hok
      simp only [Except.bind] at hok
      cases hg : mapGet s.policies pid with
      | none => rw [hg] at hok; simp at hok
      | some p =>
        simp only [hg] at hok
        by_cases how : p.owner ≠ owner
        · rw [if_pos how] at hok; exact absurd hok (by simp)
        · rw [if_neg how] at hok
          by_cases hnd2 : nd₂ ≤ now
          · rw [if_pos hnd2] at hok; exact absurd hok (by simp)
          · rw [if_neg hnd2] at hok
            injection hok with hok
            injection hok with hok1 hok2
            subst hok1
            subst hok2
            refine ⟨by omega, ?_⟩
            show (mapGet (mapSet s.schedules (s.next_sched_id + 1)
              ⟨s.next_sched_id + 1, owner, pid, nd₂, iv₂, decide (0 < iv₂),
                true, now, none, 0⟩) (s.next_sched_id + 1)).map
              (fun x => x.next_due) = some nd₂
            rw [mapGet_mapSet_self]
            rfl
  · intro nd₂ iv₂ b s₂ hok
    unfold modify_premium_schedule at hok
    cases hreq : require_not_paused s .mod_sch with
    | error e => rw [hreq] at hok; exact absurd hok (by simp [Except.bind])
    | ok u =>
      rw [hreq] at hok
      simp only [Except.bind] at hok
      by_cases hnd2 : nd₂ ≤ now
      · rw [if_pos hnd2] at hok; exact absurd hok (by simp)
      · rw [if_neg hnd2] at hok
        cases hg : mapGet s.schedules sid with
        | none => rw [hg] at hok; simp at hok
        | some sch =>
          simp only [hg] at hok
          by_cases how : sch.owner ≠ caller
          · rw [if_pos how] at hok; exact absurd hok (by simp)
          · rw [if_neg how] at hok
            injection hok with hok
            injection hok with hok1 hok2
            subst hok2
            refine ⟨by omega, ?_⟩
            show (mapGet (mapSet s.schedules sid
              { sch with next_due := nd₂, interval := iv₂,
                         recurring := decide (0 < iv₂) }) sid).map
              (fun x => x.next_due) = some nd₂
            rw [mapGet_mapSet_self]
            rfl

/-- Witness for `C9_timestamp_validation` on the `stateSched` fixture with
`next_due = 3 ≤ now = 5`. -/
theorem C9_timestamp_validation_witness :
    (require_not_paused stateSched .mod_sch = .ok () →
      modify_premium_schedule stateSched 5 0 1 3 10
        = .error .InvalidTimestamp) ∧
    (require_not_paused stateSched .crt_sch = .ok () →
      ∀ p, mapGet stateSched.policies 1 = some p → p.owner = 0 →
      create_premium_schedule stateSched 5 0 1 3 10
        = .error .InvalidTimestamp) ∧
    (∀ nd₂ iv₂ sid₂ s₂,
      create_premium_schedule stateSched 5 0 1 nd₂ iv₂ = .ok (sid₂, s₂) →
      5 < nd₂ ∧
      (mapGet s₂.schedules sid₂).map (fun x => x.next_due) = some nd₂) ∧
    (∀ nd₂ iv₂ b s₂,
      modify_premium_schedule stateSched 5 0 1 nd₂ iv₂ = .ok (b, s₂) →
      5 < nd₂ ∧
      (mapGet s₂.schedules 1).map (fun x => x.next_due) = some nd₂) :=
  C9_timestamp_validation stateSched 5 0 0 1 1 3 10 (by decide)

/-! ## C4 -/

/-- A premium of `2 ^ 126` stroops: a legal `i128` value whose double
exceeds `i128Max`. -/
def bigPremium : Int := 2 ^ 126

/-- Helper: the cache written by a non-zero `adjust_active_premium_total`. -/
theorem adjust_premium_totals_eq (s : ContractState) (owner : Address)
    (delta : Int) (h : delta ≠ 0) :
    (adjust_active_premium_total s owner delta).premium_totals =
      some (mapSet (s.premium_totals.getD []) owner
        (if 0 ≤ delta then
          saturatingAdd ((mapGet (s.premium_totals.getD []) owner).getD 0)
            delta
        else
          saturatingSub ((mapGet (s.premium_totals.getD []) owner).getD 0)
            (saturatingAbs delta))) := by
  unfold adjust_active_premium_total
  rw [if_neg h]

set_option maxRecDepth 100000 in
/-- C4 counterexample: the claim asserts the aggregation never returns a
saturated or silently incorrect total.  Starting from an empty contract,
two successful `create_policy` calls with premium `2 ^ 126` each leave the
cached owner total at `i128Max` (saturated by `saturating_add`), while the
true sum of active premiums is `2 ^ 127 > i128Max`; no error or trap is
signalled and `get_total_monthly_premium` returns the saturated value. -/
theorem C4_counterexample :
    ((create_policy emptyState 0 0 "a" "h" bigPremium 1).toOption.bind
      (fun r => (create_policy r.2 0 0 "b" "h" bigPremium 1).toOption.map
        (fun r2 => get_total_monthly_premium r2.2 0)))
      = some i128Max ∧
    ((create_policy emptyState 0 0 "a" "h" bigPremium 1).toOption.bind
      (fun r => (create_policy r.2 0 0 "b" "h" bigPremium 1).toOption.map
        (fun r2 => activeSum r2.2.policies 0)))
      = some (bigPremium + bigPremium) ∧
    i128Max ≠ bigPremium + bigPremium ∧
    i128Min ≤ bigPremium ∧ bigPremium ≤ i128Max := by
  refine ⟨by decide, by decide, by decide, by decide, by decide⟩

/-- C4 (amended): `adjust_active_premium_total` maintains the cached
per-owner total with saturating — not overflow-checked — arithmetic: a
positive adjustment stores the clamp of `current + delta` into the `i128`
range and never signals an error, so once `current + delta` exceeds
`i128Max` the stored total is silently `i128Max`, which
`get_total_monthly_premium` then returns as the owner's total.  Only the
fallback recomputation (`activeSum`) uses plain addition. -/
theorem C4_saturating_cache (s : ContractState) (owner : Address)
    (delta : Int) (hpos : 0 < delta) :
    mapGet ((adjust_active_premium_total s owner delta).premium_totals.getD
        []) owner =
      some (max i128Min
        (min ((mapGet (s.premium_totals.getD []) owner).getD 0 + delta)
          i128Max)) ∧
    (i128Max < (mapGet (s.premium_totals.getD []) owner).getD 0 + delta →
      mapGet ((adjust_active_premium_total s owner delta).premium_totals.getD
        []) owner = some i128Max) ∧
    (∀ t, (adjust_active_premium_total s owner delta).premium_totals = some t →
      get_total_monthly_premium (adjust_active_premium_total s owner delta)
          owner = (mapGet t owner).getD 0) := by
  have h0 : delta ≠ 0 := by omega
  have hget : mapGet ((adjust_active_premium_total s owner
      delta).premium_totals.getD []) owner =
      some (saturatingAdd ((mapGet (s.premium_totals.getD []) owner).getD 0)
        delta) := by
    rw [adjust_premium_totals_eq s owner delta h0, if_pos (by omega)]
    rw [show (some (mapSet (s.premium_totals.getD []) owner
        (saturatingAdd ((mapGet (s.premium_totals.getD []) owner).getD 0)
          delta))).getD [] =
      mapSet (s.premium_totals.getD []) owner
        (saturatingAdd ((mapGet (s.premium_totals.getD []) owner).getD 0)
          delta) from rfl]
    rw [mapGet_mapSet_self]
  refine ⟨hget, ?_, ?_⟩
  · intro hbig
    rw [hget]
    unfold saturatingAdd i128Clamp
    rw [min_eq_right (le_of_lt hbig),
      max_eq_right (by norm_num [i128Min, i128Max])]
  · intro t ht
    have hsome : mapGet t owner =
        some (saturatingAdd ((mapGet (s.premium_totals.getD []) owner).getD 0)
          delta) := by
      have h2 := hget
      rw [ht] at h2
      exact h2
    unfold get_total_monthly_premium
    rw [ht]
    simp only [hsome, Option.getD_some]

/-- Witness for `C4_saturating_cache` on the empty contract with
`delta = 1`. -/
theorem C4_saturating_cache_witness :
    mapGet ((adjust_active_premium_total emptyState 0 1).premium_totals.getD
        []) 0 =
      some (max i128Min
        (min ((mapGet (emptyState.premium_totals.getD []) 0).getD 0 + 1)
          i128Max)) ∧
    (i128Max < (mapGet (emptyState.premium_totals.getD []) 0).getD 0 + 1 →
      mapGet ((adjust_active_premium_total emptyState 0 1).premium_totals.getD
        []) 0 = some i128Max) ∧
    (∀ t, (adjust_active_premium_total emptyState 0 1).premium_totals
        = some t →
      get_total_monthly_premium (adjust_active_premium_total emptyState 0 1) 0
        = (mapGet t 0).getD 0) :=
  C4_saturating_cache emptyState 0 1 (by norm_num)

/-! ## C6 -/

/-- The validation loop succeeds exactly when every listed id names a
stored, caller-owned, active policy. -/
theorem validate_batch_ok (policies : List (Nat × InsurancePolicy))
    (caller : Address) (ids : List Nat) :
    validate_batch policies caller ids = .ok () ↔
      ∀ id ∈ ids, ∃ p, mapGet policies id = some p ∧
        p.owner = caller ∧ p.active = true := by
  induction ids with
  | nil => simp [validate_batch]
  | cons id rest ih =>
    unfold validate_batch
    cases hg : mapGet policies id with
    | none =>
      simp only []
      constructor
      · intro h
        exact absurd h (by simp)
      · intro h
        obtain ⟨p, hp, _⟩ := h id (List.mem_cons_self _ _)
        rw [hg] at hp
        exact absurd hp (by simp)
    | some p =>
      simp only []
      by_cases how : p.owner ≠ caller
      · rw [if_pos how]
        constructor
        · intro h
          exact absurd h (by simp)
        · intro h
          obtain ⟨q, hq, hqo, _⟩ := h id (List.mem_cons_self _ _)
          rw [hg] at hq
          injection hq with hq
          subst hq
          exact absurd hqo how
      · rw [if_neg how]
        by_cases hact : ¬p.active
        · rw [if_pos hact]
          constructor
          · intro h
            exact absurd h (by simp)
          · intro h
            obtain ⟨q, hq, _, hqa⟩ := h id (List.mem_cons_self _ _)
            rw [hg] at hq
            injection hq with hq
            subst hq
            exact absurd hqa (by simpa using hact)
        · rw [if_neg hact, ih]
          constructor
          · intro h id₂ hid₂
            rcases List.mem_cons.mp hid₂ with heq | hmem
            · subst heq
              exact ⟨p, hg, of_not_not how, by simpa using of_not_not hact⟩
            · exact h id₂ hmem
          · intro h id₂ hid₂
            exact h id₂ (List.mem_cons_of_mem _ hid₂)

/-- The application loop pays once per listed id (every id present). -/
theorem apply_batch_count (now : Nat) (ids : List Nat)
    (pm : List (Nat × InsurancePolicy)) (c : Nat)
    (h : ∀ id ∈ ids, (mapGet pm id).isSome = true) :
    (apply_batch now (pm, c) ids).2 = c + ids.length := by
  induction ids generalizing pm c with
  | nil => simp [apply_batch]
  | cons id rest ih =>
    obtain ⟨p, hp⟩ := Option.isSome_iff_exists.mp
      (h id (List.mem_cons_self _ _))
    unfold apply_batch
    simp only [hp]
    rw [ih]
    · simp [List.length_cons]
      omega
    · intro id₂ hid₂
      by_cases he : id₂ = id
      · subst he
        rw [mapGet_mapSet_self]
        rfl
      · rw [mapGet_mapSet_ne _ _ he]
        exact h id₂ (List.mem_cons_of_mem _ hid₂)

/-- The application loop stamps `now + 30 * 86400` on every listed policy
and leaves unlisted ones unchanged. -/
theorem apply_batch_get (now : Nat) (ids : List Nat)
    (pm : List (Nat × InsurancePolicy)) (c q : Nat) (p : InsurancePolicy)
    (hq : mapGet pm q = some p) :
    mapGet (apply_batch now (pm, c) ids).1 q =
      some (if q ∈ ids then { p with next_payment_date := now + 30 * 86400 }
            else p) := by
  induction ids generalizing pm c p with
  | nil => simp [apply_batch, hq]
  | cons id rest ih =>
    unfold apply_batch
    cases hg : mapGet pm id with
    | none =>
      simp only []
      by_cases he : q = id
      · subst he
        rw [hq] at hg
        exact absurd hg (by simp)
      · rw [ih pm c p hq]
        simp [he]
    | some policy =>
      simp only []
      by_cases he : q = id
      · rw [← he] at hg ⊢
        rw [hg] at hq
        injection hq with hq
        rw [← hq]
        rw [ih (mapSet pm q
            { policy with next_payment_date := now + 30 * 86400 }) (c + 1)
          { policy with next_payment_date := now + 30 * 86400 }
          (mapGet_mapSet_self pm q
            { policy with next_payment_date := now + 30 * 86400 })]
        by_cases hqr : q ∈ rest <;> simp [hqr]
      · rw [ih (mapSet pm id
            { policy with next_payment_date := now + 30 * 86400 }) (c + 1) p
          (by rw [mapGet_mapSet_ne _ _ he]; exact hq)]
        simp [he]

/-- C6: with the pause checks passing, `batch_pay_premiums` fails with
`BatchTooLarge` whenever more than 50 ids are supplied; it fails (with
`PolicyNotFound` / `Unauthorized` / `PolicyInactive`) whenever some listed
id does not name a caller-owned active policy — in this embedding an error
carries no state, matching the source, where every error return precedes
the storage write; and on success the returned count equals the number of
ids paid and every listed policy's `next_payment_date` is updated to
`now + 30 * 86400`. -/
theorem C6_batch_pay (s : ContractState) (now : Nat) (caller : Address)
    (ids : List Nat)
    (hnp : require_not_paused s .pay_prem = .ok ()) :
    (ids.length > 50 →
      batch_pay_premiums s now caller ids = .error .BatchTooLarge) ∧
    (∀ n s₂, batch_pay_premiums s now caller ids = .ok (n, s₂) →
      n = ids.length ∧
      ∀ id ∈ ids, ∃ p, mapGet s.policies id = some p ∧
        p.owner = caller ∧ p.active = true ∧
        mapGet s₂.policies id =
          some { p with next_payment_date := now + 30 * 86400 }) ∧
    ((∃ id ∈ ids, ∀ p, mapGet s.policies id = some p →
        ¬(p.owner = caller ∧ p.active = true)) →
      ∃ e, batch_pay_premiums s now caller ids = .error e) := by
  refine ⟨?_, ?_, ?_⟩
  · intro hlen
    unfold batch_pay_premiums
    rw [hnp]
    simp only [Except.bind]
    rw [if_pos hlen]
  · intro n s₂ hok
    unfold batch_pay_premiums at hok
    rw [hnp] at hok
    simp only [Except.bind] at hok
    by_cases hlen : ids.length > 50
    · rw [if_pos hlen] at hok
      exact absurd hok (by simp)
    · rw [if_neg hlen] at hok
      cases hv : validate_batch s.policies caller ids with
      | error e =>
        rw [hv] at hok
        exact absurd hok (by simp [Except.bind])
      | ok u =>
        obtain ⟨⟩ := u
        rw [hv] at hok
        simp only [Except.bind] at hok
        injection hok with hok
        injection hok with hok1 hok2
        have hall := (validate_batch_ok s.policies caller ids).mp hv
        constructor
        · rw [← hok1, apply_batch_count now ids s.policies 0 ?_]
          · omega
          · intro id hid
            obtain ⟨p, hp, _⟩ := hall id hid
            rw [hp]
            rfl
        · intro id hid
          obtain ⟨p, hp, hpo, hpa⟩ := hall id hid
          refine ⟨p, hp, hpo, hpa, ?_⟩
          rw [← hok2]
          show mapGet (apply_batch now (s.policies, 0) ids).1 id =
            some { p with next_payment_date := now + 30 * 86400 }
          rw [apply_batch_get now ids s.policies 0 id p hp, if_pos hid]
  · intro hbad
    obtain ⟨id, hid, hbadp⟩ := hbad
    cases hr : batch_pay_premiums s now caller ids with
    | error e => exact ⟨e, rfl⟩
    | ok v =>
      exfalso
      unfold batch_pay_premiums at hr
      rw [hnp] at hr
      simp only [Except.bind] at hr
      by_cases hlen : ids.length > 50
      · rw [if_pos hlen] at hr
        exact absurd hr (by simp)
      · rw [if_neg hlen] at hr
        cases hv : validate_batch s.policies caller ids with
        | error e =>
          rw [hv] at hr
          exact absurd hr (by simp [Except.bind])
        | ok u =>
          obtain ⟨⟩ := u
          have hall := (validate_batch_ok s.policies caller ids).mp hv
          obtain ⟨p, hp, hpo, hpa⟩ := hall id hid
          exact hbadp p hp ⟨hpo, hpa⟩

/-- Witness for `C6_batch_pay`: `stateFix`, one-element batch `[1]`. -/
theorem C6_batch_pay_witness :
    (([1] : List Nat).length > 50 →
      batch_pay_premiums stateFix 1000500 0 [1] = .error .BatchTooLarge) ∧
    (∀ n s₂, batch_pay_premiums stateFix 1000500 0 [1] = .ok (n, s₂) →
      n = ([1] : List Nat).length ∧
      ∀ id ∈ ([1] : List Nat), ∃ p, mapGet stateFix.policies id = some p ∧
        p.owner = 0 ∧ p.active = true ∧
        mapGet s₂.policies id =
          some { p with next_payment_date := 1000500 + 30 * 86400 }) ∧
    ((∃ id ∈ ([1] : List Nat), ∀ p, mapGet stateFix.policies id = some p →
        ¬(p.owner = 0 ∧ p.active = true)) →
      ∃ e, batch_pay_premiums stateFix 1000500 0 [1] = .error e) :=
  C6_batch_pay stateFix 1000500 0 [1] (by decide)

/-! ## C5: cached-total consistency -/

/-- The cached entry for `owner` (absent storage key reads as the empty
map). -/
def cachedTotal (s : ContractState) (owner : Address) : Option Int :=
  mapGet (s.premium_totals.getD []) owner

/-- Consistency invariant tying the cached per-owner totals to the policy
store: policy keys are unique and bounded by the id counter, premiums are
positive, every policy owner's active-premium sum fits in `i128`, cache
keys are unique, every cached entry equals the recomputed sum, and an
owner holding an active policy has a cache entry. -/
def TotalsInv (s : ContractState) : Prop :=
  (s.policies.map Prod.fst).Nodup ∧
  (∀ e ∈ s.policies, 0 < e.2.monthly_premium ∧ e.1 ≤ s.next_id) ∧
  (∀ e ∈ s.policies, activeSum s.policies e.2.owner ≤ i128Max) ∧
  (∀ e ∈ s.premium_totals.getD [], e.2 = activeSum s.policies e.1) ∧
  (∀ e ∈ s.policies, e.2.active = true →
    (cachedTotal s e.2.owner).isSome = true) ∧
  ((s.premium_totals.getD []).map Prod.fst).Nodup

instance (s : ContractState) : Decidable (TotalsInv s) := by
  unfold TotalsInv
  infer_instance

theorem activeSum_append (m₁ m₂ : List (Nat × InsurancePolicy))
    (o : Address) :
    activeSum (m₁ ++ m₂) o = activeSum m₁ o + activeSum m₂ o := by
  induction m₁ with
  | nil => simp [activeSum]
  | cons e rest ih =>
    simp only [List.cons_append, activeSum, List.append_eq, ih]
    ring

theorem activeSum_nonneg (m : List (Nat × InsurancePolicy)) (o : Address)
    (h : ∀ e ∈ m, 0 < e.2.monthly_premium) : 0 ≤ activeSum m o := by
  induction m with
  | nil => simp [activeSum]
  | cons e rest ih =>
    have he := h e (List.mem_cons_self _ _)
    have hr := ih (fun e' he' => h e' (List.mem_cons_of_mem _ he'))
    unfold activeSum
    by_cases hc : e.2.active = true ∧ e.2.owner = o
    · rw [if_pos hc]; omega
    · rw [if_neg hc]; omega

theorem activeSum_eq_zero (m : List (Nat × InsurancePolicy)) (o : Address)
    (h : ∀ e ∈ m, ¬(e.2.active = true ∧ e.2.owner = o)) :
    activeSum m o = 0 := by
  induction m with
  | nil => rfl
  | cons e rest ih =>
    unfold activeSum
    rw [if_neg (h e (List.mem_cons_self _ _)),
      ih (fun e' he' => h e' (List.mem_cons_of_mem _ he'))]
    ring

theorem activeSum_mapSet (m : List (Nat × InsurancePolicy)) (k : Nat)
    (p p' : InsurancePolicy) (o : Address)
    (hnod : (m.map Prod.fst).Nodup) (hmem : (k, p) ∈ m) :
    activeSum (mapSet m k p') o =
      activeSum m o -
        (if p.active = true ∧ p.owner = o then p.monthly_premium else 0) +
        (if p'.active = true ∧ p'.owner = o then p'.monthly_premium
         else 0) := by
  induction m with
  | nil => simp at hmem
  | cons e rest ih =>
    obtain ⟨k₀, v₀⟩ := e
    simp only [List.map_cons, List.nodup_cons] at hnod
    by_cases h0 : k₀ = k
    · subst h0
      have hv : v₀ = p := by
        rcases List.mem_cons.mp hmem with h | h
        · injection h with h1 h2; exact h2.symm
        · exact absurd (List.mem_map.mpr ⟨_, h, rfl⟩) hnod.1
      subst hv
      rw [show mapSet ((k₀, v₀) :: rest) k₀ p' = (k₀, p') :: rest from by
        simp [mapSet]]
      unfold activeSum
      ring
    · have hmem' : (k, p) ∈ rest := by
        rcases List.mem_cons.mp hmem with h | h
        · injection h with h1 h2; exact absurd h1.symm h0
        · exact h
      rw [show mapSet ((k₀, v₀) :: rest) k p' =
          (k₀, v₀) :: mapSet rest k p' from by simp [mapSet, h0]]
      unfold activeSum
      rw [ih hnod.2 hmem']
      ring

theorem premium_le_activeSum (m : List (Nat × InsurancePolicy)) (k : Nat)
    (p : InsurancePolicy) (o : Address)
    (hpos : ∀ e ∈ m, 0 < e.2.monthly_premium)
    (hnod : (m.map Prod.fst).Nodup) (hmem : (k, p) ∈ m)
    (hact : p.active = true) (ho : p.owner = o) :
    p.monthly_premium ≤ activeSum m o := by
  induction m with
  | nil => simp at hmem
  | cons e rest ih =>
    simp only [List.map_cons, List.nodup_cons] at hnod
    rcases List.mem_cons.mp hmem with h | h
    · have hnn := activeSum_nonneg rest o
        (fun e' he' => hpos e' (List.mem_cons_of_mem _ he'))
      unfold activeSum
      rw [← h]
      show p.monthly_premium ≤
        (if p.active = true ∧ p.owner = o then p.monthly_premium else 0) +
          activeSum rest o
      rw [if_pos ⟨hact, ho⟩]
      omega
    · have hr := ih (fun e' he' => hpos e' (List.mem_cons_of_mem _ he'))
        hnod.2 h
      have h0 : (0 : Int) ≤
          (if e.2.active = true ∧ e.2.owner = o then e.2.monthly_premium
           else 0) := by
        by_cases hc : e.2.active = true ∧ e.2.owner = o
        · rw [if_pos hc]
          exact le_of_lt (hpos e (List.mem_cons_self _ _))
        · rw [if_neg hc]
      unfold activeSum
      omega

theorem mem_mapSet {κ α : Type} [DecidableEq κ]
    {m : List (κ × α)} {k : κ} {v : α} {e : κ × α}
    (hnod : (m.map Prod.fst).Nodup) (hmem : e ∈ mapSet m k v) :
    e = (k, v) ∨ (e ∈ m ∧ e.1 ≠ k) := by
  induction m with
  | nil =>
    simp only [mapSet, List.mem_singleton] at hmem
    exact Or.inl hmem
  | cons e₀ rest ih =>
    obtain ⟨k₀, v₀⟩ := e₀
    simp only [List.map_cons, List.nodup_cons] at hnod
    by_cases h0 : k₀ = k
    · subst h0
      rw [show mapSet ((k₀, v₀) :: rest) k₀ v = (k₀, v) :: rest from by
        simp [mapSet]] at hmem
      rcases List.mem_cons.mp hmem with h | h
      · exact Or.inl h
      · refine Or.inr ⟨List.mem_cons_of_mem _ h, ?_⟩
        rintro he
        exact hnod.1 (List.mem_map.mpr ⟨e, h, he⟩)
    · rw [show mapSet ((k₀, v₀) :: rest) k v =
          (k₀, v₀) :: mapSet rest k v from by simp [mapSet, h0]] at hmem
      rcases List.mem_cons.mp hmem with h | h
      · subst h
        exact Or.inr ⟨List.mem_cons_self _ _, h0⟩
      · rcases ih hnod.2 h with h | ⟨h1, h2⟩
        · exact Or.inl h
        · exact Or.inr ⟨List.mem_cons_of_mem _ h1, h2⟩

theorem keys_nodup_mapSet {κ α : Type} [DecidableEq κ]
    (m : List (κ × α)) (k : κ) (v : α)
    (hnod : (m.map Prod.fst).Nodup) :
    ((mapSet m k v).map Prod.fst).Nodup := by
  by_cases hk : k ∈ m.map Prod.fst
  · rw [keys_mapSet_of_mem m k v hk]
    exact hnod
  · rw [mapSet_of_not_mem m k v hk]
    rw [List.map_append, List.nodup_append]
    refine ⟨hnod, by simp, ?_⟩
    intro a ha hb
    simp only [List.map_cons, List.map_nil, List.mem_singleton] at hb
    subst hb
    exact hk ha

/-- Under the invariant, the query returns the recomputed active-premium
sum, whether or not the cache is hit. -/
theorem getTotal_eq_activeSum (s : ContractState) (o : Address)
    (hInv : TotalsInv s) :
    get_total_monthly_premium s o = activeSum s.policies o := by
  obtain ⟨h1, h2, h3, h4, h5, h6⟩ := hInv
  unfold get_total_monthly_premium
  cases hp : s.premium_totals with
  | none => rfl
  | some t =>
    rw [hp] at h4
    simp only [Option.getD_some] at h4
    cases hg : mapGet t o with
    | none => simp only [hg]
    | some v =>
      simp only [hg]
      exact h4 (o, v) (mem_of_mapGet_eq_some hg)

theorem adjust_policies_eq (s : ContractState) (o : Address) (d : Int) :
    (adjust_active_premium_total s o d).policies = s.policies := by
  unfold adjust_active_premium_total
  split <;> rfl

theorem adjust_next_id_eq (s : ContractState) (o : Address) (d : Int) :
    (adjust_active_premium_total s o d).next_id = s.next_id := by
  unfold adjust_active_premium_total
  split <;> rfl

/-- `create_policy` preserves the cache invariant (when the new owner sum
still fits in `i128`), adds exactly the new premium to the owner's
active-premium sum, and leaves every other owner's sum unchanged. -/
theorem create_policy_preserves (s : ContractState) (now : Nat)
    (owner : Address) (nm ct : String) (mp ca : Int) (nid : Nat)
    (s₂ : ContractState) (hInv : TotalsInv s)
    (hfit : activeSum s.policies owner + mp ≤ i128Max)
    (hok : create_policy s now owner nm ct mp ca = .ok (nid, s₂)) :
    TotalsInv s₂ ∧
    activeSum s₂.policies owner = activeSum s.policies owner + mp ∧
    (∀ o, o ≠ owner → activeSum s₂.policies o = activeSum s.policies o) := by
  obtain ⟨h1, h2, h3, h4, h5, h6⟩ := hInv
  unfold create_policy at hok
  cases hreq : require_not_paused s .crt_pol with
  | error e => rw [hreq] at hok; exact absurd hok (by simp [Except.bind])
  | ok u =>
    rw [hreq] at hok
    simp only [Except.bind] at hok
    by_cases hamt : mp ≤ 0 ∨ ca ≤ 0
    · rw [if_pos hamt] at hok
      exact absurd hok (by simp)
    · rw [if_neg hamt] at hok
      push_neg at hamt
      have hmp : 0 < mp := hamt.1
      injection hok with hok
      injection hok with hok1 hok2
      have hfresh : (s.next_id + 1) ∉ s.policies.map Prod.fst := by
        intro hmemk
        obtain ⟨e, he, hek⟩ := List.mem_map.mp hmemk
        have := (h2 e he).2
        omega
      have hsetP : mapSet s.policies (s.next_id + 1)
          { id := s.next_id + 1, owner := owner, name := nm,
            coverage_type := ct, monthly_premium := mp,
            coverage_amount := ca, active := true,
            next_payment_date := now + 30 * 86400, schedule_id := none } =
          s.policies ++ [(s.next_id + 1,
            { id := s.next_id + 1, owner := owner, name := nm,
              coverage_type := ct, monthly_premium := mp,
              coverage_amount := ca, active := true,
              next_payment_date := now + 30 * 86400,
              schedule_id := none })] :=
        mapSet_of_not_mem _ _ _ hfresh
      have hsum : ∀ o, activeSum (mapSet s.policies (s.next_id + 1)
          { id := s.next_id + 1, owner := owner, name := nm,
            coverage_type := ct, monthly_premium := mp,
            coverage_amount := ca, active := true,
            next_payment_date := now + 30 * 86400, schedule_id := none }) o =
          activeSum s.policies o + (if owner = o then mp else 0) := by
        intro o
        rw [hsetP, activeSum_append]
        congr 1
        simp [activeSum]
      have hnn : 0 ≤ activeSum s.policies owner :=
        activeSum_nonneg _ _ (fun e he => (h2 e he).1)
      have hcur : (cachedTotal s owner).getD 0 =
          activeSum s.policies owner := by
        cases hc : cachedTotal s owner with
        | some v =>
          have hv := h4 (owner, v) (mem_of_mapGet_eq_some hc)
          simp only [Option.getD_some]
          exact hv
        | none =>
          have hz : ∀ e ∈ s.policies,
              ¬(e.2.active = true ∧ e.2.owner = owner) := by
            rintro e he ⟨ha, ho⟩
            have hs := h5 e he ha
            rw [ho] at hs
            rw [hc] at hs
            simp at hs
          rw [activeSum_eq_zero _ _ hz]
          rfl
      have hsat : saturatingAdd ((cachedTotal s owner).getD 0) mp =
          activeSum s.policies owner + mp := by
        rw [hcur]
        unfold saturatingAdd i128Clamp
        rw [min_eq_left hfit, max_eq_right (by
          unfold i128Min
          have : (0:Int) ≤ activeSum s.policies owner + mp := by omega
          omega)]
      -- s₂ is `adjust` applied to the mid-state with the new policy row
      rw [← hok2]
      rw [show (adjust_active_premium_total
          { s with
            policies := mapSet s.policies (s.next_id + 1)
              { id := s.next_id + 1, owner := owner, name := nm,
                coverage_type := ct, monthly_premium := mp,
                coverage_amount := ca, active := true,
                next_payment_date := now + 30 * 86400,
                schedule_id := none },
            next_id := s.next_id + 1 }
          owner mp).policies = mapSet s.policies (s.next_id + 1)
            { id := s.next_id + 1, owner := owner, name := nm,
              coverage_type := ct, monthly_premium := mp,
              coverage_amount := ca, active := true,
              next_payment_date := now + 30 * 86400, schedule_id := none }
        from adjust_policies_eq _ _ _]
      unfold cachedTotal at hsat
      have htot2 : (adjust_active_premium_total
          { s with
            policies := mapSet s.policies (s.next_id + 1)
              { id := s.next_id + 1, owner := owner, name := nm,
                coverage_type := ct, monthly_premium := mp,
                coverage_amount := ca, active := true,
                next_payment_date := now + 30 * 86400,
                schedule_id := none },
            next_id := s.next_id + 1 }
          owner mp).premium_totals =
          some (mapSet (s.premium_totals.getD []) owner
            (activeSum s.policies owner + mp)) := by
        rw [adjust_premium_totals_eq _ _ _ (by omega : mp ≠ 0)]
        rw [if_pos (by omega : (0:Int) ≤ mp)]
        rw [show ({ s with
            policies := mapSet s.policies (s.next_id + 1)
              { id := s.next_id + 1, owner := owner, name := nm,
                coverage_type := ct, monthly_premium := mp,
                coverage_amount := ca, active := true,
                next_payment_date := now + 30 * 86400,
                schedule_id := none },
            next_id := s.next_id + 1 } : ContractState).premium_totals =
          s.premium_totals from rfl]
        rw [hsat]
      refine ⟨⟨?_, ?_, ?_, ?_, ?_, ?_⟩, ?_, ?_⟩
      · rw [adjust_policies_eq]
        exact keys_nodup_mapSet _ _ _ h1
      · intro e he
        rw [adjust_policies_eq, hsetP] at he
        rw [adjust_next_id_eq]
        rcases List.mem_append.mp he with h | h
        · refine ⟨(h2 e h).1, ?_⟩
          show e.1 ≤ s.next_id + 1
          have := (h2 e h).2
          omega
        · simp only [List.mem_singleton] at h
          subst h
          refine ⟨hmp, ?_⟩
          show s.next_id + 1 ≤ s.next_id + 1
          exact le_refl _
      · intro e he
        rw [adjust_policies_eq] at he ⊢
        rw [hsum]
        by_cases ho : owner = e.2.owner
        · rw [if_pos ho, ← ho]
          exact hfit
        · rw [if_neg ho]
          rw [hsetP] at he
          rcases List.mem_append.mp he with h | h
          · have := h3 e h
            omega
          · simp only [List.mem_singleton] at h
            subst h
            exact absurd rfl ho
      · intro e he
        rw [htot2] at he
        simp only [Option.getD_some] at he
        rw [adjust_policies_eq]
        rcases mem_mapSet h6 he with h | ⟨hmem0, hne⟩
        · subst h
          rw [hsum]
          show activeSum s.policies owner + mp =
            activeSum s.policies owner + (if owner = owner then mp else 0)
          rw [if_pos rfl]
        · rw [hsum, if_neg (fun hh => hne (hh.symm)), h4 e hmem0]
          ring
      · intro e he ha
        rw [adjust_policies_eq] at he
        unfold cachedTotal
        rw [htot2]
        simp only [Option.getD_some]
        by_cases ho : e.2.owner = owner
        · rw [ho, mapGet_mapSet_self]
          rfl
        · rw [mapGet_mapSet_ne _ _ ho]
          rw [hsetP] at he
          rcases List.mem_append.mp he with h | h
          · have h5e := h5 e h ha
            unfold cachedTotal at h5e
            exact h5e
          · simp only [List.mem_singleton] at h
            subst h
            exact absurd rfl ho
      · rw [htot2]
        simp only [Option.getD_some]
        exact keys_nodup_mapSet _ _ _ h6
      · rw [hsum owner, if_pos rfl]
      · intro o ho
        rw [hsum o, if_neg (fun hh => ho hh.symm)]
        ring

/-- `deactivate_policy` preserves the cache invariant; deactivating an
active policy removes exactly its premium from the owner's active sum,
deactivating an already-inactive one changes nothing, and other owners'
sums are never affected. -/
theorem deactivate_policy_preserves (s : ContractState) (caller : Address)
    (pid : Nat) (p : InsurancePolicy) (b : Bool) (s₂ : ContractState)
    (hInv : TotalsInv s)
    (hp : mapGet s.policies pid = some p)
    (hok : deactivate_policy s caller pid = .ok (b, s₂)) :
    TotalsInv s₂ ∧
    (p.active = true →
      activeSum s₂.policies caller =
        activeSum s.policies caller - p.monthly_premium) ∧
    (p.active = false →
      ∀ o, activeSum s₂.policies o = activeSum s.policies o) ∧
    (∀ o, o ≠ caller →
      activeSum s₂.policies o = activeSum s.policies o) := by
  obtain ⟨h1, h2, h3, h4, h5, h6⟩ := hInv
  have hmem : (pid, p) ∈ s.policies := mem_of_mapGet_eq_some hp
  have hmp : 0 < p.monthly_premium := (h2 (pid, p) hmem).1
  unfold deactivate_policy at hok
  cases hreq : require_not_paused s .deact with
  | error e => rw [hreq] at hok; exact absurd hok (by simp [Except.bind])
  | ok u =>
    rw [hreq] at hok
    simp only [Except.bind, hp] at hok
    by_cases how : p.owner ≠ caller
    · rw [if_pos how] at hok; exact absurd hok (by simp)
    · rw [if_neg how] at hok
      have hcall : p.owner = caller := of_not_not how
      injection hok with hok
      injection hok with hok1 hok2
      by_cases hact : p.active = true
      · rw [if_pos hact] at hok2
        have hsumM : ∀ o, activeSum (mapSet s.policies pid
            { p with active := false }) o =
            activeSum s.policies o -
              (if caller = o then p.monthly_premium else 0) := by
          intro o
          rw [activeSum_mapSet s.policies pid p
            { p with active := false } o h1 hmem]
          have e1 : (if ({ p with active := false } :
              InsurancePolicy).active = true ∧
              ({ p with active := false } : InsurancePolicy).owner = o then
              ({ p with active := false } :
                InsurancePolicy).monthly_premium
              else 0) = (0 : Int) := by simp
          rw [e1]
          have e2 : (if p.active = true ∧ p.owner = o then
              p.monthly_premium else 0) =
              (if caller = o then p.monthly_premium else 0) := by
            by_cases hco : caller = o
            · rw [if_pos hco, if_pos ⟨hact, by rw [hcall, hco]⟩]
            · rw [if_neg hco,
                if_neg (fun hh => hco (by rw [← hcall]; exact hh.2))]
          rw [e2]
          ring
        have hccs : (cachedTotal s p.owner).isSome = true :=
          h5 (pid, p) hmem hact
        rw [hcall] at hccs
        obtain ⟨v, hv⟩ := Option.isSome_iff_exists.mp hccs
        unfold cachedTotal at hv
        have hveq : v = activeSum s.policies caller :=
          h4 (caller, v) (mem_of_mapGet_eq_some hv)
        have hle : p.monthly_premium ≤ activeSum s.policies caller :=
          premium_le_activeSum s.policies pid p caller
            (fun e he => (h2 e he).1) h1 hmem hact hcall
        have hmax : activeSum s.policies p.owner ≤ i128Max :=
          h3 (pid, p) hmem
        rw [hcall] at hmax
        have hMinneg : i128Min < 0 := by norm_num [i128Min]
        have habs : saturatingAbs (-p.monthly_premium) =
            p.monthly_premium := by
          unfold saturatingAbs i128Clamp
          rw [abs_neg, abs_of_pos hmp]
          rw [min_eq_left (by omega), max_eq_right (by omega)]
        have hsub : saturatingSub (activeSum s.policies caller)
            p.monthly_premium =
            activeSum s.policies caller - p.monthly_premium := by
          unfold saturatingSub i128Clamp
          rw [min_eq_left (by omega), max_eq_right (by omega)]
        have htot2 : (adjust_active_premium_total
            { s with
              policies := mapSet s.policies pid
                { p with active := false } }
            caller (-p.monthly_premium)).premium_totals =
            some (mapSet (s.premium_totals.getD []) caller
              (activeSum s.policies caller - p.monthly_premium)) := by
          rw [adjust_premium_totals_eq _ _ _ (by omega :
            -p.monthly_premium ≠ 0)]
          rw [if_neg (by omega : ¬(0 : Int) ≤ -p.monthly_premium)]
          rw [show ({ s with
              policies := mapSet s.policies pid
                { p with active := false } } :
              ContractState).premium_totals = s.premium_totals from rfl]
          rw [habs, hv]
          simp only [Option.getD_some]
          rw [hveq, hsub]
        rw [← hok2]
        rw [show (adjust_active_premium_total
            { s with
              policies := mapSet s.policies pid
                { p with active := false } }
            caller (-p.monthly_premium)).policies =
            mapSet s.policies pid { p with active := false }
          from adjust_policies_eq _ _ _]
        refine ⟨⟨?_, ?_, ?_, ?_, ?_, ?_⟩, ?_, ?_, ?_⟩
        · rw [adjust_policies_eq]
          exact keys_nodup_mapSet _ _ _ h1
        · intro e he
          rw [adjust_policies_eq] at he
          rw [adjust_next_id_eq]
          rcases mem_mapSet h1 he with h | ⟨hmem0, _⟩
          · subst h
            refine ⟨hmp, ?_⟩
            show pid ≤ s.next_id
            exact (h2 (pid, p) hmem).2
          · refine ⟨(h2 e hmem0).1, ?_⟩
            show e.1 ≤ s.next_id
            exact (h2 e hmem0).2
        · intro e he
          rw [adjust_policies_eq] at he ⊢
          rw [hsumM]
          rcases mem_mapSet h1 he with h | ⟨hmem0, _⟩
          · subst h
            show activeSum s.policies p.owner -
              (if caller = p.owner then p.monthly_premium else 0) ≤ i128Max
            have hm : activeSum s.policies p.owner ≤ i128Max :=
              h3 (pid, p) hmem
            by_cases hc : caller = p.owner
            · rw [if_pos hc]; omega
            · rw [if_neg hc]; omega
          · have hm := h3 e hmem0
            by_cases hc : caller = e.2.owner
            · rw [if_pos hc]; omega
            · rw [if_neg hc]; omega
        · intro e he
          rw [htot2] at he
          simp only [Option.getD_some] at he
          rw [adjust_policies_eq]
          rcases mem_mapSet h6 he with h | ⟨hmem0, hne⟩
          · subst h
            rw [hsumM]
            show activeSum s.policies caller - p.monthly_premium =
              activeSum s.policies caller -
                (if caller = caller then p.monthly_premium else 0)
            rw [if_pos rfl]
          · rw [hsumM, if_neg (fun hh => hne hh.symm), h4 e hmem0]
            ring
        · intro e he ha
          rw [adjust_policies_eq] at he
          unfold cachedTotal
          rw [htot2]
          simp only [Option.getD_some]
          by_cases ho : e.2.owner = caller
          · rw [ho, mapGet_mapSet_self]
            rfl
          · rw [mapGet_mapSet_ne _ _ ho]
            rcases mem_mapSet h1 he with h | ⟨hmem0, _⟩
            · subst h
              exact absurd ha (by simp)
            · have h5e := h5 e hmem0 ha
              unfold cachedTotal at h5e
              exact h5e
        · rw [htot2]
          simp only [Option.getD_some]
          exact keys_nodup_mapSet _ _ _ h6
        · intro _
          rw [hsumM caller, if_pos rfl]
        · intro hfalse
          exact absurd hact (by simp [hfalse])
        · intro o ho
          rw [hsumM o, if_neg (fun hh => ho hh.symm)]
          ring
      · rw [if_neg hact] at hok2
        have hfalse : p.active = false := by
          cases hpa : p.active
          · rfl
          · exact absurd hpa hact
        have hpp : ({ p with active := false } : InsurancePolicy) = p := by
          obtain ⟨a1, a2, a3, a4, a5, a6, a7, a8, a9⟩ := p
          simp only at hfalse
          rw [hfalse]
        rw [hpp, mapSet_eq_self h1 hmem] at hok2
        have hs2 : s₂ = s := hok2.symm.trans rfl
        subst hs2
        exact ⟨⟨h1, h2, h3, h4, h5, h6⟩,
          fun htrue => absurd htrue hact,
          fun _ o => rfl, fun o _ => rfl⟩

set_option maxRecDepth 100000 in
/-- C5 counterexample: the claim asserts the cached per-owner total, when
present, always agrees with the recomputed per-policy sum in every
reachable state.  After two `create_policy` calls with premium `2 ^ 126`
(a reachable state), the saturated cache returns `i128Max` while the
recomputed sum is `2 ^ 127`: `get_total_monthly_premium` disagrees with
`activeSum`. -/
theorem C5_counterexample :
    ((create_policy emptyState 0 0 "a" "h" bigPremium 1).toOption.bind
      (fun r => (create_policy r.2 0 0 "b" "h" bigPremium 1).toOption.map
        (fun r2 => decide (get_total_monthly_premium r2.2 0 =
          activeSum r2.2.policies 0))))
      = some false := by decide

/-- Fixture: `stateFix` with a consistent cached total for owner 0. -/
def stateTot : ContractState :=
  { stateFix with premium_totals := some [(0, 100)] }

/-- C5 (amended): under the cache-consistency invariant `TotalsInv` —
which holds for a freshly deployed contract and is preserved by the
operations so long as no per-owner active-premium sum leaves the `i128`
range — `get_total_monthly_premium` equals the recomputed sum of the
owner's active premiums (cache hit or not); a successful `create_policy`
preserves the invariant (given the grown sum still fits) and raises
exactly the owner's total by the new premium; a successful
`deactivate_policy` preserves the invariant, lowers the owner's total by
exactly the policy's premium when the policy was active and changes
nothing when it was already inactive; and neither operation ever changes
another owner's total.  Without the range condition the agreement fails
(see the counterexample): saturation silently corrupts the cache. -/
theorem C5_cached_total (s : ContractState) (hInv : TotalsInv s) :
    TotalsInv emptyState ∧
    (∀ o, get_total_monthly_premium s o = activeSum s.policies o) ∧
    (∀ now owner nm ct mp ca nid s₂,
      activeSum s.policies owner + mp ≤ i128Max →
      create_policy s now owner nm ct mp ca = .ok (nid, s₂) →
      TotalsInv s₂ ∧
      get_total_monthly_premium s₂ owner =
        get_total_monthly_premium s owner + mp ∧
      (∀ o, o ≠ owner →
        get_total_monthly_premium s₂ o = get_total_monthly_premium s o)) ∧
    (∀ caller pid p b s₂,
      mapGet s.policies pid = some p →
      deactivate_policy s caller pid = .ok (b, s₂) →
      TotalsInv s₂ ∧
      (p.active = true →
        get_total_monthly_premium s₂ caller =
          get_total_monthly_premium s caller - p.monthly_premium) ∧
      (p.active = false →
        ∀ o, get_total_monthly_premium s₂ o
          = get_total_monthly_premium s o) ∧
      (∀ o, o ≠ caller →
        get_total_monthly_premium s₂ o = get_total_monthly_premium s o)) := by
  refine ⟨by decide, fun o => getTotal_eq_activeSum s o hInv, ?_, ?_⟩
  · intro now owner nm ct mp ca nid s₂ hfit hok
    obtain ⟨hInv₂, hδ, hrest⟩ :=
      create_policy_preserves s now owner nm ct mp ca nid s₂ hInv hfit hok
    refine ⟨hInv₂, ?_, ?_⟩
    · rw [getTotal_eq_activeSum s₂ owner hInv₂,
        getTotal_eq_activeSum s owner hInv, hδ]
    · intro o ho
      rw [getTotal_eq_activeSum s₂ o hInv₂, getTotal_eq_activeSum s o hInv,
        hrest o ho]
  · intro caller pid p b s₂ hp hok
    obtain ⟨hInv₂, hδa, hδi, hrest⟩ :=
      deactivate_policy_preserves s caller pid p b s₂ hInv hp hok
    refine ⟨hInv₂, ?_, ?_, ?_⟩
    · intro ha
      rw [getTotal_eq_activeSum s₂ caller hInv₂,
        getTotal_eq_activeSum s caller hInv, hδa ha]
    · intro ha o
      rw [getTotal_eq_activeSum s₂ o hInv₂, getTotal_eq_activeSum s o hInv,
        hδi ha o]
    · intro o ho
      rw [getTotal_eq_activeSum s₂ o hInv₂, getTotal_eq_activeSum s o hInv,
        hrest o ho]

set_option maxRecDepth 100000 in
/-- Witness for `C5_cached_total` on the `stateTot` fixture (one active
policy of premium 100 with a matching cache entry). -/
theorem C5_cached_total_witness :
    TotalsInv emptyState ∧
    (∀ o, get_total_monthly_premium stateTot o
      = activeSum stateTot.policies o) ∧
    (∀ now owner nm ct mp ca nid s₂,
      activeSum stateTot.policies owner + mp ≤ i128Max →
      create_policy stateTot now owner nm ct mp ca = .ok (nid, s₂) →
      TotalsInv s₂ ∧
      get_total_monthly_premium s₂ owner =
        get_total_monthly_premium stateTot owner + mp ∧
      (∀ o, o ≠ owner →
        get_total_monthly_premium s₂ o
          = get_total_monthly_premium stateTot o)) ∧
    (∀ caller pid p b s₂,
      mapGet stateTot.policies pid = some p →
      deactivate_policy stateTot caller pid = .ok (b, s₂) →
      TotalsInv s₂ ∧
      (p.active = true →
        get_total_monthly_premium s₂ caller =
          get_total_monthly_premium stateTot caller - p.monthly_premium) ∧
      (p.active = false →
        ∀ o, get_total_monthly_premium s₂ o
          = get_total_monthly_premium stateTot o) ∧
      (∀ o, o ≠ caller →
        get_total_monthly_premium s₂ o
          = get_total_monthly_premium stateTot o)) :=
  C5_cached_total stateTot (by decide)

/-- The state produced by paying `policyFix` at time `1000500`. -/
def stateFixPaid : ContractState :=
  { stateFix with
    policies := mapSet stateFix.policies 1
      { policyFix with next_payment_date := 1000500 + 30 * 86400 } }

/-- Witness for `C1_pay_anchoring` at the concrete fixtures. -/
theorem C1_pay_anchoring_witness :
    mapGet stateFixPaid.policies 1 =
      some { policyFix with next_payment_date := 1000500 + 30 * 86400 } ∧
    (pay_bill billFix 1000500 2).2 = (pay_bill billFix 999000 2).2 ∧
    (pay_bill billFix 1000500 2).2 = some (billSuccessor billFix 2) ∧
    (billSuccessor billFix 2).due_date =
      billFix.due_date + billFix.frequency_days * 86400 ∧
    (billSuccessor billFix 2).paid = false :=
  C1_pay_anchoring stateFix 1000500 0 1 policyFix stateFixPaid
    (by decide) (by decide) billFix 1000500 999000 2 (by decide)

end Remitwise
